import Mathlib

set_option autoImplicit false

namespace EnsembleSpec

/-- Model of a Python runtime value as used by the Ensemble repository:
the None singleton, opaque scalars, strings, lists, tuples, and opaque
callables identified by a code id interpreted by an environment. -/
inductive PyObj where
  | vnone : PyObj
  | atom  : Nat → PyObj
  | vstr  : String → PyObj
  | vlist : List PyObj → PyObj
  | vtup  : List PyObj → PyObj
  | fn    : Nat → PyObj

mutual

/-- Decidable structural equality on values (Python equality of the modelled values). -/
def pyDecEq : (a b : PyObj) → Decidable (a = b)
  | .vnone, .vnone => isTrue rfl
  | .vnone, .atom n => isFalse (fun hc => PyObj.noConfusion hc)
  | .vnone, .vstr t => isFalse (fun hc => PyObj.noConfusion hc)
  | .vnone, .vlist ys => isFalse (fun hc => PyObj.noConfusion hc)
  | .vnone, .vtup ys => isFalse (fun hc => PyObj.noConfusion hc)
  | .vnone, .fn n => isFalse (fun hc => PyObj.noConfusion hc)
  | .atom m, .vnone => isFalse (fun hc => PyObj.noConfusion hc)
  | .atom m, .atom n =>
      if h : m = n then isTrue (by rw [h])
      else isFalse (fun hc => h (PyObj.atom.inj hc))
  | .atom m, .vstr t => isFalse (fun hc => PyObj.noConfusion hc)
  | .atom m, .vlist ys => isFalse (fun hc => PyObj.noConfusion hc)
  | .atom m, .vtup ys => isFalse (fun hc => PyObj.noConfusion hc)
  | .atom m, .fn n => isFalse (fun hc => PyObj.noConfusion hc)
  | .vstr s, .vnone => isFalse (fun hc => PyObj.noConfusion hc)
  | .vstr s, .atom n => isFalse (fun hc => PyObj.noConfusion hc)
  | .vstr s, .vstr t =>
      if h : s = t then isTrue (by rw [h])
      else isFalse (fun hc => h (PyObj.vstr.inj hc))
  | .vstr s, .vlist ys => isFalse (fun hc => PyObj.noConfusion hc)
  | .vstr s, .vtup ys => isFalse (fun hc => PyObj.noConfusion hc)
  | .vstr s, .fn n => isFalse (fun hc => PyObj.noConfusion hc)
  | .vlist xs, .vnone => isFalse (fun hc => PyObj.noConfusion hc)
  | .vlist xs, .atom n => isFalse (fun hc => PyObj.noConfusion hc)
  | .vlist xs, .vstr t => isFalse (fun hc => PyObj.noConfusion hc)
  | .vlist xs, .vlist ys =>
      match pyDecEqList xs ys with
      | isTrue h => isTrue (by rw [h])
      | isFalse h => isFalse (fun hc => h (PyObj.vlist.inj hc))
  | .vlist xs, .vtup ys => isFalse (fun hc => PyObj.noConfusion hc)
  | .vlist xs, .fn n => isFalse (fun hc => PyObj.noConfusion hc)
  | .vtup xs, .vnone => isFalse (fun hc => PyObj.noConfusion hc)
  | .vtup xs, .atom n => isFalse (fun hc => PyObj.noConfusion hc)
  | .vtup xs, .vstr t => isFalse (fun hc => PyObj.noConfusion hc)
  | .vtup xs, .vlist ys => isFalse (fun hc => PyObj.noConfusion hc)
  | .vtup xs, .vtup ys =>
      match pyDecEqList xs ys with
      | isTrue h => isTrue (by rw [h])
      | isFalse h => isFalse (fun hc => h (PyObj.vtup.inj hc))
  | .vtup xs, .fn n => isFalse (fun hc => PyObj.noConfusion hc)
  | .fn m, .vnone => isFalse (fun hc => PyObj.noConfusion hc)
  | .fn m, .atom n => isFalse (fun hc => PyObj.noConfusion hc)
  | .fn m, .vstr t => isFalse (fun hc => PyObj.noConfusion hc)
  | .fn m, .vlist ys => isFalse (fun hc => PyObj.noConfusion hc)
  | .fn m, .vtup ys => isFalse (fun hc => PyObj.noConfusion hc)
  | .fn m, .fn n =>
      if h : m = n then isTrue (by rw [h])
      else isFalse (fun hc => h (PyObj.fn.inj hc))

/-- Decidable structural equality on lists of values. -/
def pyDecEqList : (xs ys : List PyObj) → Decidable (xs = ys)
  | [], [] => isTrue rfl
  | x :: xs, y :: ys =>
      match pyDecEq x y, pyDecEqList xs ys with
      | isTrue h1, isTrue h2 => isTrue (by rw [h1, h2])
      | isFalse h1, _ => isFalse (fun hc => h1 (List.cons.inj hc).1)
      | _, isFalse h2 => isFalse (fun hc => h2 (List.cons.inj hc).2)
  | [], _ :: _ => isFalse (fun hc => List.noConfusion hc)
  | _ :: _, [] => isFalse (fun hc => List.noConfusion hc)

end

instance : DecidableEq PyObj := pyDecEq

/-- Decidable equality of Except results, used to evaluate the claims on
concrete inputs. -/
def exceptDecEq {e a : Type} [DecidableEq e] [DecidableEq a] :
    (x y : Except e a) → Decidable (x = y)
  | .ok u, .ok v =>
      if h : u = v then isTrue (by rw [h])
      else isFalse (fun hc => h (Except.ok.inj hc))
  | .ok _, .error _ => isFalse (fun hc => Except.noConfusion hc)
  | .error _, .ok _ => isFalse (fun hc => Except.noConfusion hc)
  | .error u, .error v =>
      if h : u = v then isTrue (by rw [h])
      else isFalse (fun hc => h (Except.error.inj hc))

instance {e a : Type} [DecidableEq e] [DecidableEq a] : DecidableEq (Except e a) := exceptDecEq

/-- Python exceptions raised by the modelled code paths. -/
inductive PyErr where
  | argumentError  : String → PyErr
  | typeError      : String → PyErr
  | keyError       : String → PyErr
  | indexError     : PyErr
  | valueError     : PyErr
  | assertionError : PyErr
  | attributeError : String → PyErr
  | ensembleError  : String → PyErr
  | nameError      : String → PyErr
  deriving DecidableEq, Repr

/-- A Python dict with string keys, in insertion order. -/
abbrev Dict := List (String × PyObj)

/-- Lookup in a dict (first match). -/
def dlookup : Dict → String → Option PyObj
  | [], _ => none
  | (k, v) :: d, key => if k = key then some v else dlookup d key

/-- Python test of the form (key in d). -/
def dmem (d : Dict) (k : String) : Bool := (dlookup d k).isSome

/-- Python dict assignment d[k] = v: replace the value in place if the key
exists, otherwise append the new entry at the end (insertion order). -/
def dinsert : Dict → String → PyObj → Dict
  | [], k, v => [(k, v)]
  | (k', v') :: d, k, v => if k' = k then (k', v) :: d else (k', v') :: dinsert d k v

/-- Python deletion (del d[k]) for a present key: removes the first match. -/
def ddel : Dict → String → Dict
  | [], _ => []
  | (k', v') :: d, k => if k' = k then d else (k', v') :: ddel d k

/-- Python d.update(e). -/
def dupdate (d e : Dict) : Dict := e.foldl (fun acc kv => dinsert acc kv.1 kv.2) d

/-- Keys of a dict, in order. -/
def dkeys (d : Dict) : List String := d.map Prod.fst

/-- Python dicts never hold a key twice; the embedding carries this as a
hypothesis where it matters. -/
def nodupKeys (d : Dict) : Prop := (dkeys d).Nodup

/-- Python len for sized values (lists, tuples, strings); TypeError otherwise. -/
def pyLen : PyObj → Except PyErr Nat
  | .vlist xs => .ok xs.length
  | .vtup xs => .ok xs.length
  | .vstr s => .ok s.length
  | _ => .error (.typeError "object has no len")

/-- Elements obtained by iterating a Python value.  Only sized sequence values
are ever iterated on the modelled code paths, so the remaining cases are junk. -/
def pyElems : PyObj → List PyObj
  | .vlist xs => xs
  | .vtup xs => xs
  | .vstr s => s.data.map (fun c => .vstr c.toString)
  | _ => []

/-- Python isinstance(v, (list, tuple)). -/
def isSeq : PyObj → Bool
  | .vlist _ => true
  | .vtup _ => true
  | _ => false

/-- Python sequence indexing v[n] for an in-range index; the modelled code
only indexes after asserting that n is below the length. -/
def pyIndex (v : PyObj) (n : Nat) : PyObj := (pyElems v).getD n .vnone

/-- Python sequence repetition v * n (list, tuple or string repeated n times). -/
def pyRepeat : PyObj → Nat → PyObj
  | .vlist xs, n => .vlist (List.flatten (List.replicate n xs))
  | .vtup xs, n => .vtup (List.flatten (List.replicate n xs))
  | .vstr s, n => .vstr (String.join (List.replicate n s))
  | v, _ => v

/-- Helper for pyZip: walks the first iterable, taking one element from every
other iterable per step and stopping as soon as any of them is exhausted. -/
def pyZipGo : List PyObj → List (List PyObj) → List (List PyObj)
  | [], _ => []
  | x :: xs, rest =>
    if rest.any List.isEmpty then []
    else (x :: rest.map (fun l => l.headD PyObj.vnone)) :: pyZipGo xs (rest.map List.tail)

/-- Python zip(*iterables): the list of per-position tuples, truncated at the
shortest iterable; zip of no iterables is empty. -/
def pyZip : List (List PyObj) → List (List PyObj)
  | [] => []
  | l0 :: rest => pyZipGo l0 rest

/-! ## Model of src/ensemble/expand.py -/

/-- An entry of an expansion list in expand.py: either a plain parameter name
(a Python str) or a parallel-expansion group (a Python tuple of names). -/
inductive ExpEntry where
  | name  : String → ExpEntry
  | group : List String → ExpEntry
  deriving DecidableEq, Repr

/-- Python membership test (key in entries) for a string key against a list
that may hold strings and tuples; a string never equals a tuple. -/
def containsName (l : List ExpEntry) (s : String) : Bool :=
  l.any (fun e => e = ExpEntry.name s)

/-- Test for a plain-string entry (Python isinstance(arg, str)). -/
def isNameEntry : ExpEntry → Bool
  | .name _ => true
  | .group _ => false

/-- Sequential deletion (for el in exp_list: del kwargs[el]) in _prepareList;
deleting a missing key raises KeyError. -/
def delAll : List String → Dict → Except PyErr Dict
  | [], d => .ok d
  | k :: ks, d => if dmem d k then delAll ks (ddel d k) else throw (.keyError k)

/-- Type check loop of _prepareList: every pulled value must be a list or a
tuple, otherwise TypeError(el) is raised. -/
def checkSeqs : List String → Dict → Except PyErr Unit
  | [], _ => .ok ()
  | el :: rest, d =>
      if isSeq ((dlookup d el).getD .vnone) then checkSeqs rest d
      else throw (.typeError el)

/-- Model of _prepareList (expand.py lines 42-50): drop entries that are not
keys of kwargs (tuples are never dict keys), pull the kept values into
exp_dict, delete them from kwargs, and type check the pulled values. -/
def prepareList (exp_list : List ExpEntry) (kwargs : Dict) :
    Except PyErr (List String × Dict × Dict) := do
  let names := exp_list.filterMap (fun e =>
    match e with
    | .name s => if dmem kwargs s then some s else none
    | .group _ => none)
  let exp_dict : Dict := names.map (fun s => (s, (dlookup kwargs s).getD .vnone))
  let kwargs2 ← delAll names kwargs
  checkSeqs names exp_dict
  pure (names, exp_dict, kwargs2)

/-- Terminal step of _loop_recursion: append every current kwarg value to the
accumulated per-key list (list_dict[key].append(value) over kwargs.items()). -/
def ldAppend (ld : Dict) (k : String) (v : PyObj) : Dict :=
  match dlookup ld k with
  | some (.vlist xs) => dinsert ld k (.vlist (xs ++ [v]))
  | _ => ld

/-- Fold of ldAppend over one terminal kwargs dict. -/
def appendAll (list_dict kwargs : Dict) : Dict :=
  kwargs.foldl (fun ld kv => ldAppend ld kv.1 kv.2) list_dict

/-- Recursive core of _loop_recursion (expand.py lines 16-39): pop the first
loop variable, iterate over its sequence overwriting the kwarg with each
element, and recurse; at the bottom append the fully scalarised kwargs. -/
def loopRec : List String → Dict → Dict → Dict
  | [], ld, kwargs => appendAll ld kwargs
  | n :: rest, ld, kwargs =>
      (pyElems ((dlookup kwargs n).getD .vnone)).foldl
        (fun ld2 v => loopRec rest ld2 (dinsert kwargs n v)) ld

/-- Model of _loop_recursion called as _loop_recursion(loop_list, **kwargs):
the accumulator starts as an empty list for every kwargs key. -/
def loop_recursion (loop_list : List String) (kwargs : Dict) : Dict :=
  loopRec loop_list (kwargs.map (fun kv => (kv.1, PyObj.vlist []))) kwargs

/-- Python kwtmp.pop(name) performed for every name of a parallel group;
popping a missing name raises KeyError(name). -/
def popAll : List String → Dict → Except PyErr (List PyObj × Dict)
  | [], kwtmp => .ok ([], kwtmp)
  | k :: ks, kwtmp =>
      match dlookup kwtmp k with
      | some v => do
          let (vs, kwtmp2) ← popAll ks (ddel kwtmp k)
          pure (v :: vs, kwtmp2)
      | none => throw (.keyError k)

/-- Lengths of a list of values; a value without len raises TypeError. -/
def lensOf : List PyObj → Except PyErr (List Nat)
  | [] => .ok []
  | v :: vs => do
      let n ← pyLen v
      let ns ← lensOf vs
      pure (n :: ns)

/-- Model of all(len(args) == len(par_args[0]) for args in par_args); the whole
list of lengths is computed first (Python builds the comprehension list). -/
def allSameLen (l : List PyObj) : Except PyErr Bool :=
  match l with
  | [] => .ok true
  | a0 :: _ => do
      let ns ← lensOf l
      let n0 ← pyLen a0
      pure (ns.all (fun n => n = n0))

/-- Scan of the outer list for parallel-expansion groups (expand.py lines
81-92): each group pops its member sequences, checks equal lengths, and is
replaced in kwtmp by a fake name bound to the zipped list of tuples.  A plain
string entry is left alone; ExpEntry has no third form, so the
(not isinstance(kw, str)) TypeError branch of line 92 is unrepresentable. -/
def parScan : List ExpEntry → List (String × List String) → Dict →
    Except PyErr (List (String × List String) × Dict)
  | [], par, kwtmp => .ok (par, kwtmp)
  | .name _ :: rest, par, kwtmp => parScan rest par kwtmp
  | .group ks :: rest, par, kwtmp => do
      let (par_args, kwtmp2) ← popAll ks kwtmp
      let ok ← allSameLen par_args
      if !ok then
        throw (.argumentError "Lists for parallel expansion arguments have to be of same length!")
      else
        parScan rest (par ++ [("TMP_" ++ String.intercalate "_" ks ++ "_" ++ toString ks.length, ks)])
          (dinsert kwtmp2 ("TMP_" ++ String.intercalate "_" ks ++ "_" ++ toString ks.length)
            (.vlist ((pyZip (par_args.map pyElems)).map PyObj.vtup)))

/-- Replacement of the first occurrence of an entry (Python
outer_list[outer_list.index(names)] = fake). -/
def replaceFirst : List ExpEntry → ExpEntry → ExpEntry → List ExpEntry
  | [], _, _ => []
  | e :: es, tgt, rep => if e = tgt then rep :: es else e :: replaceFirst es tgt rep

/-- Replacement loop over par_dict (expand.py lines 94-98). -/
def replaceGroups : List (String × List String) → List ExpEntry → List ExpEntry
  | [], ol => ol
  | (fake, ks) :: rest, ol =>
      replaceGroups rest
        (if (ExpEntry.group ks) ∈ ol then replaceFirst ol (.group ks) (.name fake) else ol)

/-- Product of the lengths of the outer expansion sequences (expand.py lines
102-104). -/
def prodLens : List String → Dict → Except PyErr Nat
  | [], _ => .ok 1
  | el :: rest, d =>
      match dlookup d el with
      | some v => do
          let n ← pyLen v
          let m ← prodLens rest d
          pure (n * m)
      | none => throw (.keyError el)

/-- Model of assert all(len(list_dict[el]) == lstlen for el in outer_list). -/
def checkLens : List String → Dict → Nat → Except PyErr Unit
  | [], _, _ => .ok ()
  | el :: rest, ld, n =>
      match dlookup ld el with
      | none => throw (.keyError el)
      | some v => do
          let m ← pyLen v
          if m = n then checkLens rest ld n else throw .assertionError

/-- Model of assert all(len(ld) == lstlen for ld in list_dict.values()). -/
def checkValLens : List (String × PyObj) → Nat → Except PyErr Unit
  | [], _ => .ok ()
  | (_, v) :: rest, n => do
      let m ← pyLen v
      if m = n then checkValLens rest n else throw .assertionError

/-- Python assignment loop (for name, args in zip(names, par_args):
list_dict[name] = args); zip truncates at the shorter list. -/
def assignCols : List String → List PyObj → Dict → Dict
  | k :: ks, v :: vs, ld => assignCols ks vs (dinsert ld k v)
  | _, _, ld => ld

/-- Disassembly of the parallel-expansion fake entries (expand.py lines
113-118): pop the fake column, transpose its tuples back into one expanded
column per original name, and store those columns. -/
def disassemble : List (String × List String) → Dict → Except PyErr Dict
  | [], ld => .ok ld
  | (fake, ks) :: rest, ld =>
      match dlookup ld fake with
      | none => throw .assertionError
      | some col => do
          let par_args := (pyZip ((pyElems col).map pyElems)).map PyObj.vtup
          if par_args.length ≠ ks.length then throw .assertionError
          else disassemble rest (assignCols ks par_args (ddel ld fake))

/-- Broadcast-and-check loop of the inner product expansion (expand.py lines
130-134): singleton sequences are repeated lstlen times, any other length
that differs from lstlen raises TypeError. -/
def broadcastLoop : List String → Dict → Nat → Except PyErr Dict
  | [], d, _ => .ok d
  | el :: rest, d, lstlen => do
      let n ← pyLen ((dlookup d el).getD .vnone)
      if n = 1 then
        broadcastLoop rest (dinsert d el (pyRepeat ((dlookup d el).getD .vnone) lstlen)) lstlen
      else if n ≠ lstlen then
        throw (.typeError "Lists have to be of same length to form inner product!")
      else broadcastLoop rest d lstlen

/-- Final assembly (expand.py lines 137-143): one argument dict per index,
copying kwargs and overlaying the position-n value of every expanded column. -/
def assemble (kwargs : Dict) (list_dict : Dict) (lstlen : Nat) : List Dict :=
  (List.range lstlen).map (fun n =>
    dupdate kwargs (list_dict.map (fun kv => (kv.1, pyIndex kv.2 n))))

/-- Legacy argument handling (expand.py lines 66-71): expand_list is redirected
into inner or outer according to lproduct; mixing modes is an error. -/
def resolveLegacy (inner_list outer_list expand_list : Option (List ExpEntry))
    (lproduct : String) : Except PyErr (List ExpEntry × List ExpEntry) :=
  match expand_list with
  | some el =>
      if inner_list.isSome || outer_list.isSome then
        throw (.argumentError "Can not mix input modes!")
      else if lproduct.toLower = "inner" then .ok (el, [])
      else if lproduct.toLower = "outer" then .ok ([], el)
      else throw (.argumentError lproduct)
  | none => .ok (inner_list.getD [], outer_list.getD [])

/-- Model of expandArgumentList (expand.py lines 54-145).  Optional list
arguments distinguish Python None from an explicit (possibly empty) list,
which matters both for the truthiness gate and for the legacy-mode check.
In base.py neither ArgumentError nor multiprocessing is imported, so the
paths that mention them there raise NameError; inside expand.py itself
ArgumentError is defined and raised normally. -/
def expandArgumentList (inner_list outer_list expand_list : Option (List ExpEntry))
    (lproduct : String) (kwargs : Dict) : Except PyErr (List Dict) :=
  if ((inner_list.getD []).isEmpty && (outer_list.getD []).isEmpty
      && (expand_list.getD []).isEmpty) then
    .ok [kwargs]
  else do
    let (il, ol) ← resolveLegacy inner_list outer_list expand_list lproduct
    let outerRes ←
      if ol.length > 0 then do
        let kwtmp := kwargs.filter (fun kv => !(containsName il kv.1))
        let (par_dict, kwtmp2) ← parScan ol [] kwtmp
        let ol2 := replaceGroups par_dict ol
        if !(ol2.all isNameEntry) then throw .assertionError
        else do
          let (outer_names, outer_dict, _rest) ← prepareList ol2 kwtmp2
          let lstlen ← prodLens outer_names outer_dict
          let list_dict := loop_recursion outer_names outer_dict
          if !(list_dict.all (fun kv => dmem outer_dict kv.1)) then throw .assertionError
          else do
            checkLens outer_names list_dict lstlen
            checkValLens list_dict lstlen
            let list_dict2 ← disassemble par_dict list_dict
            pure (some (outer_names, list_dict2, lstlen))
      else pure none
    let innerRes ←
      if il.length > 0 then do
        let (kwtmp3, entries) :=
          match outerRes with
          | some (outer_names, list_dict, _) =>
              if outer_names.length > 0 then
                (dupdate kwargs list_dict, outer_names.map ExpEntry.name ++ il)
              else (kwargs, il)
          | none => (kwargs, il)
        let (inner_names, inner_dict, _rest2) ← prepareList entries kwtmp3
        match inner_names with
        | [] => throw .indexError
        | el0 :: _ => do
            let lstlen ← pyLen ((dlookup inner_dict el0).getD .vnone)
            let inner_dict2 ← broadcastLoop inner_names inner_dict lstlen
            pure (some (inner_dict2, lstlen))
      else pure none
    match innerRes, outerRes with
    | some (ld, n), _ => .ok (assemble kwargs ld n)
    | none, some (_, ld, n) => .ok (assemble kwargs ld n)
    | none, none => throw (.nameError "lstlen")

/-! ## Model of src/ensemble/base.py

Member objects of an ensemble are external domain objects; they are modelled
as a class tag plus an attribute table.  The geodata classes (Dataset,
Variable, Axis) are not part of this repository and are not even importable
from base.py, so class tags are opaque numbers; the tag strCls stands for the
Python string type, which can occur as a basetype. -/

/-- An ensemble member: an object with a class tag and named attributes. -/
structure Member where
  cls : Nat
  attrs : List (String × PyObj)
  deriving DecidableEq

/-- Class tag of Python strings. -/
def strCls : Nat := 1

/-- Python getattr(m, k): AttributeError when the attribute is missing. -/
def getAttrM (m : Member) (k : String) : Except PyErr PyObj :=
  match dlookup m.attrs k with
  | some v => .ok v
  | none => throw (.attributeError k)

/-- Python setattr(m, k, v). -/
def memSetAttr (m : Member) (k : String) (v : PyObj) : Member :=
  ⟨m.cls, dinsert m.attrs k v⟩

/-- A value stored in the instance dict of an Ensemble: a member added under
its id key, a plain attribute value, the member list, or the basetype class. -/
inductive DictVal where
  | mem : Member → DictVal
  | val : PyObj → DictVal
  | membersList : List Member → DictVal
  | clsTag : Nat → DictVal
  deriving DecidableEq

/-- The instance dict of an Ensemble, keyed by Python values (CPython allows
arbitrary hashable keys through direct dict access, which base.py uses). -/
abbrev ODict := List (PyObj × DictVal)

/-- Lookup in the instance dict (first match). -/
def odictLookup : ODict → PyObj → Option DictVal
  | [], _ => none
  | (k, v) :: d, key => if k = key then some v else odictLookup d key

/-- Assignment in the instance dict: replace in place or append. -/
def odictInsert : ODict → PyObj → DictVal → ODict
  | [], k, v => [(k, v)]
  | (k', v') :: d, k, v => if k' = k then (k', v) :: d else (k', v') :: odictInsert d k v

/-- Deletion of a present key from the instance dict. -/
def odictDel : ODict → PyObj → ODict
  | [], _ => []
  | (k', v') :: d, k => if k' = k then d else (k', v') :: odictDel d k

/-- State of an Ensemble instance: its instance dict.  The members attribute,
the basetype and the idkey all live in the dict, exactly as in Python, so a
member whose id key collides with one of them really collides. -/
structure EnsState where
  odict : ODict
  deriving DecidableEq

/-- Reading self.members (falls back to the class attribute default for
states that never completed construction). -/
def stMembers (st : EnsState) : List Member :=
  match odictLookup st.odict (.vstr "members") with
  | some (.membersList ms) => ms
  | _ => []

/-- Reading self.basetype. -/
def stBasetype (st : EnsState) : Nat :=
  match odictLookup st.odict (.vstr "basetype") with
  | some (.clsTag b) => b
  | _ => 0

/-- Reading self.idkey; the class attribute default is "name". -/
def stIdkey (st : EnsState) : String :=
  match odictLookup st.odict (.vstr "idkey") with
  | some (.val (.vstr s)) => s
  | _ => "name"

/-- Writing self.members (the list object is aliased from the dict). -/
def setMembers (st : EnsState) (ms : List Member) : EnsState :=
  ⟨odictInsert st.odict (.vstr "members") (.membersList ms)⟩

/-- Argument of hasMember and removeMember: a member instance or an id string. -/
inductive MemberOrKey where
  | mem : Member → MemberOrKey
  | key : String → MemberOrKey
  deriving DecidableEq

/-- The id-key attribute of every member, in member order (the comprehension
in the consistency assert of hasMember). -/
def allIds : List Member → String → Except PyErr (List PyObj)
  | [], _ => .ok []
  | m :: rest, ik => do
      let v ← getAttrM m ik
      let vs ← allIds rest ik
      pure (v :: vs)

/-- Member-id collision loop of the constructor (base.py lines 123-129): each
member id must be a string and must not already be a key of the instance
dict; the id is then bound to the member.  The append to self.idkeys is
redirected through the members by the custom setattr and never touches the
instance dict, so it is not reflected here. -/
def addIds : List Member → String → ODict → Except PyErr ODict
  | [], _, d => .ok d
  | m :: rest, ik, d => do
      let memid ← getAttrM m ik
      match memid with
      | .vstr s =>
          if (odictLookup d memid).isSome then
            throw (.attributeError ("Cannot overwrite existing attribute " ++ s ++ "."))
          else addIds rest ik (odictInsert d memid (.mem m))
      | _ => throw (.typeError "Member ID key should be a string-type")

/-- Model of Ensemble.__init__ (base.py lines 90-129).  The undefined name
EnsHGS in the custom setattr is read as the defining class, which is the only
way construction can proceed at all; with that reading the assignments to
members, ens_name, ens_title, basetype and idkey hit class-attribute names and
land in the instance dict, while self.idkeys = [] is redirected to the member
objects (each member gains an idkeys attribute and self.idkeys is never set).
Basetype inference isinstance checks against the external Dataset and
Variable classes collapse to taking the class of the first member. -/
def ensembleInit (members : List Member) (name title : Option String)
    (basetype : Option Nat) (idkeyArg : Option String) (extra : List (String × PyObj)) :
    Except PyErr EnsState := do
  let bt ← match basetype with
    | some b => pure b
    | none => match members with
      | [] => throw .indexError
      | m :: _ => pure m.cls
  if members.length > 0 && !(members.all (fun m => m.cls == bt)) then
    throw (.typeError "Not all members conform to selected type")
  else do
    let ik := idkeyArg.getD "name"
    let ms := members.map (fun m => memSetAttr m "idkeys" (.vlist []))
    let d0 : ODict :=
      [(.vstr "members", .membersList ms),
       (.vstr "ens_name", .val (.vstr (name.getD ""))),
       (.vstr "ens_title", .val (.vstr (title.getD ""))),
       (.vstr "basetype", .clsTag bt),
       (.vstr "idkey", .val (.vstr ik))]
      ++ extra.map (fun kv => (PyObj.vstr kv.1, DictVal.val kv.2))
    let d ← addIds ms ik d0
    pure ⟨d⟩

/-- Model of Ensemble.hasMember (base.py lines 229-250), including its
consistency asserts.  A string argument is an instance of the basetype only
when the basetype is the string class itself, in which case getattr of the
id key on a plain string raises AttributeError. -/
def hasMember (st : EnsState) (x : MemberOrKey) : Except PyErr Bool :=
  match x with
  | .mem m =>
      if m.cls = stBasetype st then do
        let memid ← getAttrM m (stIdkey st)
        if m ∈ stMembers st then
          if (odictLookup st.odict memid).isSome then
            if odictLookup st.odict memid = some (.mem m) then pure true
            else throw .assertionError
          else throw .assertionError
        else
          if (odictLookup st.odict memid).isSome then throw .assertionError
          else pure false
      else throw (.typeError "Argument has to be of basetype or basestring type")
  | .key s =>
      if stBasetype st = strCls then throw (.attributeError (stIdkey st))
      else
        match odictLookup st.odict (.vstr s) with
        | some (.mem m2) =>
            if m2 ∈ stMembers st then do
              let v ← getAttrM m2 (stIdkey st)
              if v = .vstr s then pure true else throw .assertionError
            else throw .assertionError
        | some _ => throw .assertionError
        | none => do
            let ids ← allIds (stMembers st) (stIdkey st)
            if (.vstr s) ∈ ids then throw .assertionError else pure false

/-- Model of Ensemble.addMember (base.py lines 252-258): only a basetype
check; the member is appended and its id bound in the dict unconditionally,
then the result of hasMember is returned. -/
def addMember (st : EnsState) (m : Member) : Except PyErr (EnsState × Bool) := do
  if m.cls ≠ stBasetype st then
    throw (.typeError "Ensemble members have to be of basetype type")
  else do
    let st2 := setMembers st (stMembers st ++ [m])
    let memid ← getAttrM m (stIdkey st2)
    let st3 : EnsState := ⟨odictInsert st2.odict memid (.mem m)⟩
    let b ← hasMember st3 (.mem m)
    pure (st3, b)

/-- Python list.insert index semantics: negative indices count from the end,
out-of-range indices clamp. -/
def insertAt {a : Type} : Nat → a → List a → List a
  | 0, x, l => x :: l
  | _ + 1, x, [] => [x]
  | n + 1, x, y :: l => y :: insertAt n x l

/-- Resolution of a Python insertion index to a clamped position. -/
def pyInsPos (i : Int) (len : Nat) : Nat :=
  if i < 0 then ((len : Int) + i).toNat else min i.toNat len

/-- Model of Ensemble.insertMember (base.py lines 260-266). -/
def insertMember (st : EnsState) (i : Int) (m : Member) : Except PyErr (EnsState × Bool) := do
  if m.cls ≠ stBasetype st then
    throw (.typeError "Ensemble members have to be of basetype type")
  else do
    let ms := stMembers st
    let st2 := setMembers st (insertAt (pyInsPos i ms.length) m ms)
    let memid ← getAttrM m (stIdkey st2)
    let st3 : EnsState := ⟨odictInsert st2.odict memid (.mem m)⟩
    let b ← hasMember st3 (.mem m)
    pure (st3, b)

/-- Model of Ensemble.removeMember (base.py lines 268-283).  For a present
member the id entry and the first matching list entry are deleted; for an
absent one nothing happens; either way the negated hasMember result of the
resolved member (or of the original argument if nothing was removed) is
returned. -/
def removeMember (st : EnsState) (x : MemberOrKey) : Except PyErr (EnsState × Bool) := do
  let tOK : Bool := match x with
    | .mem m => m.cls == stBasetype st
    | .key _ => true
  if !tOK then throw (.typeError "Argument has to be of basetype or basestring type")
  else do
    let h ← hasMember st x
    if h then do
      let (memid, m) ←
        (match x with
         | .key s =>
             (match odictLookup st.odict (.vstr s) with
              | some (.mem m2) => pure (PyObj.vstr s, m2)
              | some _ => throw .assertionError
              | none => throw (.keyError s) : Except PyErr (PyObj × Member))
         | .mem m2 => do
             let memid ← getAttrM m2 (stIdkey st)
             pure (memid, m2))
      if m.cls ≠ stBasetype st then throw .assertionError
      else if (odictLookup st.odict memid).isNone then throw (.keyError "memid")
      else do
        let st2 : EnsState := ⟨odictDel st.odict memid⟩
        if m ∈ stMembers st2 then do
          let st3 := setMembers st2 ((stMembers st2).erase m)
          let h2 ← hasMember st3 (.mem m)
          pure (st3, !h2)
        else throw .valueError
    else do
      let h2 ← hasMember st x
      pure (st, !h2)

/-- Python callable() on modelled values.  The external Variable and Dataset
classes (whose instances are also callable) are not representable in PyObj. -/
def callableObj : PyObj → Bool
  | .fn _ => true
  | _ => false

/-- Python test of the form (f is None). -/
def isNoneObj : PyObj → Bool
  | .vnone => true
  | _ => false

/-- Python isinstance(f, (Variable, Dataset)): the geodata classes are
external collaborators, absent from this repository, so no modelled value is
an instance of them. -/
def isVarOrDs : PyObj → Bool := fun _ => false

/-- Attribute values of one name over all members, in member order. -/
def msGetAll : List Member → String → Except PyErr (List PyObj)
  | [], _ => .ok []
  | m :: rest, attr => do
      let v ← getAttrM m attr
      let vs ← msGetAll rest attr
      pure (v :: vs)

/-- Outcome space of ensemble dispatch.  The source functions below only ever
produce attrVals, wrapperOf and callTuple; suppressedNone is the shape the
Result Recaster uses for an all-None result set and exists so that claims
about recasting can be stated. -/
inductive DispatchResult where
  | attrVals : List PyObj → DispatchResult
  | wrapperOf : String → DispatchResult
  | callTuple : List PyObj → DispatchResult
  | suppressedNone : DispatchResult
  deriving DecidableEq

/-- Model of Ensemble._recastList (base.py lines 131-172) on representable
result sets: an all-None list is suppressed to None; a list with no callable
and no Variable or Dataset instance is returned as is.  Because the geodata
classes are external, isVarOrDs is constantly false, the Variable and Dataset
branch of lines 135-172 is dead code here, and for the remaining inputs
(some value callable) the function falls off the end, returning None. -/
def recastList (fs : List PyObj) : DispatchResult :=
  if fs.all isNoneObj then .suppressedNone
  else if fs.all (fun f => !callableObj f && !isVarOrDs f) then .attrVals fs
  else .suppressedNone

/-- Model of Ensemble.__getattr__ (base.py lines 193-208): gather
callable(getattr(member, attr)) over the members; no callable gives the plain
list of attribute values, all callable gives an EnsembleWrapper, and a mix
raises EnsembleError naming the attribute. -/
def ensGetattr (st : EnsState) (attr : String) : Except PyErr DispatchResult := do
  let vals ← msGetAll (stMembers st) attr
  if !(vals.any callableObj) then pure (.attrVals vals)
  else if vals.all callableObj then pure (.wrapperOf attr)
  else throw (.ensembleError ("Inconsistent attribute type " ++ attr))

/-- Per-member method invocation over zipped argument dicts (base.py lines
69-71); the opaque callables are interpreted by the environment callFn. -/
def callAll (callFn : Nat → Dict → PyObj) :
    List PyObj → List Dict → Except PyErr (List PyObj)
  | f :: fs, d :: ds => do
      match f with
      | .fn c => do
          let rs ← callAll callFn fs ds
          pure (callFn c d :: rs)
      | _ => throw (.typeError "object is not callable")
  | _, _ => .ok []

/-- Python list repetition l * n. -/
def listRepeat {α : Type} (l : List α) (n : Nat) : List α := (List.replicate n l).flatten

/-- Model of EnsembleWrapper.__call__ (base.py lines 40-75), sequential path.
base.py imports neither ArgumentError nor multiprocessing, so the
length-mismatch raise and the lparallel branch both raise NameError when
reached.  The collected results are returned as a plain tuple (line 75). -/
def wrapperCall (callFn : Nat → Dict → PyObj) (st : EnsState) (attr : String)
    (lparallel : Bool) (inner_list outer_list : Option (List ExpEntry)) (kwargs : Dict) :
    Except PyErr DispatchResult := do
  let kwargs_list ← expandArgumentList inner_list outer_list none "outer" kwargs
  let ms := stMembers st
  let kwargs_list := if kwargs_list.length = 1 then listRepeat kwargs_list ms.length else kwargs_list
  if kwargs_list.length ≠ ms.length then throw (.nameError "ArgumentError")
  else if lparallel then throw (.nameError "multiprocessing")
  else do
    let methods ← msGetAll ms attr
    let results ← callAll callFn methods kwargs_list
    if results.length ≠ ms.length then throw (.nameError "ArgumentError")
    else pure (.callTuple results)

/-! ## Specification-side definitions

These definitions follow the wording of the specification (nested-loop
Cartesian product, element-wise inner zip with singleton broadcast, parallel
lock-step groups) and are compared against the source model in the claim
theorems. -/

/-- Nested-loop enumeration of one choice dict per combination: the
first-declared column varies slowest, the last varies fastest. -/
def choiceLists : List (String × List PyObj) → List Dict
  | [] => [[]]
  | (n, xs) :: rest => xs.flatMap (fun x => (choiceLists rest).map (fun c => (n, x) :: c))

/-- The sequence bound to an expansion name in the keyword arguments. -/
def seqOf (kwargs : Dict) (n : String) : List PyObj :=
  pyElems ((dlookup kwargs n).getD .vnone)

/-- Spec reading of outer expansion (spec section 4.1): the Cartesian product
over the outer names in nested-loop order, each combination yielding one
mapping that copies every untouched kwarg verbatim and resolves every outer
name to its chosen value. -/
def outerProductSpec (kwargs : Dict) (ns : List String) : List Dict :=
  (choiceLists (ns.map (fun n => (n, seqOf kwargs n)))).map
    (fun c => kwargs.map (fun kv => (kv.1, (dlookup c kv.1).getD kv.2)))

/-- Spec reading of singleton broadcast: a length-1 sequence is repeated to
the common length, any other sequence is used as is. -/
def broadcastSeq (xs : List PyObj) (len : Nat) : List PyObj :=
  if xs.length = 1 then List.replicate len (xs.headD .vnone) else xs

/-- Spec reading of inner expansion (spec section 4.1): element-wise zip of
the inner sequences with singletons broadcast, untouched kwargs verbatim,
one mapping per position below the common length. -/
def innerZipSpec (kwargs : Dict) (ms : List String) (len : Nat) : List Dict :=
  (List.range len).map (fun i =>
    kwargs.map (fun kv =>
      (kv.1, if kv.1 ∈ ms then (broadcastSeq (seqOf kwargs kv.1) len).getD i .vnone
             else kv.2)))

/-- Spec reading of a parallel outer group combined with one independent
outer name (spec section 8): L*M mappings, the grouped names advancing
together with the group index i (varying slowest), the independent name
following its own index j (varying fastest). -/
def parallelGroupSpec (kwargs : Dict) (ks : List String) (b : String) : List Dict :=
  (List.range (seqOf kwargs (ks.headD "")).length).flatMap (fun i =>
    (List.range (seqOf kwargs b).length).map (fun j =>
      kwargs.map (fun kv =>
        (kv.1, if kv.1 ∈ ks then (seqOf kwargs kv.1).getD i .vnone
               else if kv.1 = b then (seqOf kwargs b).getD j .vnone
               else kv.2))))

/-! ## Proof-layer combinators

Dicts whose keys are a fixed name list are written as skeletons over a value
function; the outer product recursion is characterised through valuation
enumeration. -/

/-- A dict with the given keys and a value function. -/
def skel (ns : List String) (f : String → PyObj) : Dict :=
  ns.map (fun n => (n, f n))

/-- Pointwise update of a value function. -/
def fupd (f : String → PyObj) (n : String) (v : PyObj) : String → PyObj :=
  fun m => if m = n then v else f m

/-- All terminal valuations reached by the recursion of _loop_recursion, in
visit order: each name of the loop list is bound to each element of its
sequence, first name varying slowest. -/
def termvals : List String → (String → PyObj) → List (String → PyObj)
  | [], f => [f]
  | n :: rest, f => (pyElems (f n)).flatMap (fun v => termvals rest (fupd f n v))

/-- The value a broadcast step of the inner expansion leaves in place. -/
def bcastVal (v : PyObj) (len : Nat) : PyObj :=
  if (pyElems v).length = 1 then pyRepeat v len else v

/-! ## Concrete fixtures used by witnesses and counterexamples -/

/-- Keyword arguments with two outer sequences and one scalar. -/
def kwOuterW : Dict :=
  [("a", .vlist [.atom 0, .atom 1]),
   ("b", .vlist [.atom 2, .atom 3, .atom 4]),
   ("c", .vstr "x")]

/-- Keyword arguments for the parallel-group witness: a lock-step pair of
length 2, an independent outer name of length 3, and a scalar. -/
def kwParW : Dict :=
  [("p", .vlist [.atom 0, .atom 1]),
   ("q", .vlist [.vstr "u", .vstr "v"]),
   ("r", .vlist [.atom 5, .atom 6, .atom 7]),
   ("s", .vstr "keep")]

/-- Parallel-group arguments of unequal lengths. -/
def kwParBad : Dict :=
  [("p", .vlist [.atom 0, .atom 1]),
   ("q", .vlist [.vstr "u"]),
   ("r", .vlist [.atom 5]),
   ("s", .vstr "keep")]

/-- Parallel-group arguments with empty sequences. -/
def kwParEmpty : Dict :=
  [("p", .vlist []), ("q", .vlist []), ("r", .vlist [.atom 0])]

/-- Keyword arguments for the inner-zip witness: a column of length 3, a
singleton to broadcast, and a scalar. -/
def kwInnerW : Dict :=
  [("x", .vlist [.atom 0, .atom 1, .atom 2]),
   ("y", .vlist [.atom 9]),
   ("z", .vstr "s")]

/-- Inner-expansion arguments whose first sequence is the singleton. -/
def kwInnerBad : Dict :=
  [("a", .vlist [.atom 0]), ("b", .vlist [.atom 1, .atom 2])]

/-- Arguments with one outer name of length 2 and one inner name of length 2. -/
def kwMixed : Dict :=
  [("a", .vlist [.atom 0, .atom 1]), ("b", .vlist [.atom 2, .atom 3])]

/-- A member with one attribute. -/
def mkMember (cls : Nat) (attrs : List (String × PyObj)) : Member := ⟨cls, attrs⟩

/-- Ensemble of two members whose attribute a is None on both. -/
def noneEns : EnsState :=
  ⟨[(.vstr "members",
     .membersList [mkMember 7 [("a", .vnone)], mkMember 7 [("a", .vnone)]])]⟩

/-- Ensemble of two members whose attribute f is callable on both. -/
def twoCallEns : EnsState :=
  ⟨[(.vstr "members",
     .membersList [mkMember 7 [("f", .fn 0)], mkMember 7 [("f", .fn 1)]])]⟩

/-- Ensemble of two members where f is callable on one and plain on the other. -/
def mixEns : EnsState :=
  ⟨[(.vstr "members",
     .membersList [mkMember 7 [("f", .fn 0)], mkMember 7 [("f", .atom 1)]])]⟩

/-- Environment interpreting every callable as returning None. -/
def constNoneEnv : Nat → Dict → PyObj := fun _ _ => .vnone

/-- Member named A of class 7. -/
def memA : Member := mkMember 7 [("name", .vstr "A")]

/-- Member named B of class 7. -/
def memB : Member := mkMember 7 [("name", .vstr "B")]

/-- A second, distinct member that also carries the id A. -/
def memA2 : Member := mkMember 7 [("name", .vstr "A"), ("tag", .atom 2)]

/-- A consistent two-member ensemble state over memA and memB. -/
def ensAB : EnsState :=
  ⟨[(.vstr "members", .membersList [memA, memB]),
    (.vstr "ens_name", .val (.vstr "")),
    (.vstr "ens_title", .val (.vstr "")),
    (.vstr "basetype", .clsTag 7),
    (.vstr "idkey", .val (.vstr "name")),
    (.vstr "A", .mem memA),
    (.vstr "B", .mem memB)]⟩

/-- A member of a different class, absent from ensAB. -/
def memZ : Member := mkMember 7 [("name", .vstr "Z")]

/-- Decidable statement that a member or key is genuinely absent from an
ensemble: the argument is well typed for removal, its id is resolvable, and
neither the member list nor the instance dict nor the member ids know it. -/
def trulyAbsent (st : EnsState) : MemberOrKey → Bool
  | .mem m =>
      m.cls == stBasetype st
      && (dlookup m.attrs (stIdkey st)).isSome
      && !(decide (m ∈ stMembers st))
      && (odictLookup st.odict ((dlookup m.attrs (stIdkey st)).getD .vnone)).isNone
  | .key s =>
      !(stBasetype st == strCls)
      && (odictLookup st.odict (.vstr s)).isNone
      && (match allIds (stMembers st) (stIdkey st) with
          | .ok ids => !(decide ((PyObj.vstr s) ∈ ids))
          | .error _ => false)

/-! ## General helper lemmas -/

theorem exBindOk {e a b : Type} (x : a) (f : a → Except e b) :
    ((Except.ok x : Except e a) >>= f) = f x := rfl

theorem exBindErr {e a b : Type} (err : e) (f : a → Except e b) :
    ((Except.error err : Except e a) >>= f) = .error err := rfl

theorem exBindPure {e a b : Type} (x : a) (f : a → Except e b) :
    ((pure x : Except e a) >>= f) = f x := rfl

/-! ## Claim C9 -/

/-- Claim C9: for every kwargs mapping, calling expandArgumentList with no
inner names, no outer names and no legacy expand list returns a
single-element sequence containing exactly the original kwargs mapping
unchanged, whatever the lproduct mode string is. -/
theorem expand_no_directives_identity (lproduct : String) (kwargs : Dict) :
    expandArgumentList none none none lproduct kwargs = .ok [kwargs] := rfl

/-! ## Claim C7 -/

/-- Claim C7: when the requested attribute resolves to a callable on some
members but not on all of them, attribute dispatch raises an EnsembleError
naming the requested attribute instead of returning a value or a dispatcher. -/
theorem mixed_dispatch_raises (st : EnsState) (attr : String) (vals : List PyObj)
    (hv : msGetAll (stMembers st) attr = .ok vals)
    (hsome : vals.any callableObj = true)
    (hnotall : vals.all callableObj = false) :
    ensGetattr st attr = .error (.ensembleError ("Inconsistent attribute type " ++ attr)) := by
  unfold ensGetattr
  rw [hv]
  simp only [exBindOk, hsome, hnotall]
  rfl

/-- Witness for mixed_dispatch_raises: a two-member ensemble where f is a
method on the first member and a plain value on the second. -/
theorem mixed_dispatch_raises_witness :
    msGetAll (stMembers mixEns) "f" = .ok [.fn 0, .atom 1] ∧
    ([PyObj.fn 0, .atom 1].any callableObj = true) ∧
    ([PyObj.fn 0, .atom 1].all callableObj = false) ∧
    ensGetattr mixEns "f" = .error (.ensembleError ("Inconsistent attribute type " ++ "f")) :=
  ⟨rfl, rfl, rfl, mixed_dispatch_raises mixEns "f" [.fn 0, .atom 1] rfl rfl rfl⟩

/-! ## Claim C5 -/

/-- Counterexample to claim C5: on an ensemble whose members both hold None
in attribute a, attribute dispatch returns the plain list of the two Nones;
it does not return the single suppressed None that the Result Recaster
(whose all-None branch is also evaluated here) would produce. -/
theorem getattr_allnone_gives_list_of_nones :
    ensGetattr noneEns "a" = .ok (.attrVals [.vnone, .vnone]) ∧
    ensGetattr noneEns "a" ≠ .ok DispatchResult.suppressedNone ∧
    recastList [PyObj.vnone, .vnone] = DispatchResult.suppressedNone :=
  ⟨rfl, by decide, rfl⟩

/-- Claim C5 as amended: when no member exposes a callable for the requested
attribute, dispatch returns the plain list of the per-member values without
applying the Result Recaster, so an all-None attribute yields a list of
Nones rather than a suppressed None. -/
theorem getattr_noncallable_plain_list (st : EnsState) (attr : String) (vals : List PyObj)
    (hv : msGetAll (stMembers st) attr = .ok vals)
    (hnc : vals.all (fun v => !callableObj v) = true) :
    ensGetattr st attr = .ok (.attrVals vals) := by
  unfold ensGetattr
  rw [hv]
  have hany : vals.any callableObj = false := by
    rw [List.any_eq_false]
    intro x hx
    have := List.all_eq_true.mp hnc x hx
    simpa using this
  simp only [exBindOk, hany]
  rfl

/-- Witness for getattr_noncallable_plain_list at the all-None ensemble. -/
theorem getattr_noncallable_plain_list_witness :
    msGetAll (stMembers noneEns) "a" = .ok [.vnone, .vnone] ∧
    ([PyObj.vnone, .vnone].all (fun v => !callableObj v) = true) ∧
    ensGetattr noneEns "a" = .ok (.attrVals [.vnone, .vnone]) :=
  ⟨rfl, rfl, getattr_noncallable_plain_list noneEns "a" [.vnone, .vnone] rfl rfl⟩

/-! ## Claim C6 -/

/-- Claim C6 evaluated at the failing input: on an ensemble whose members
both expose a callable f, invoking the bound dispatcher collects the member
results and returns them as a plain tuple, not through the Result Recaster;
with every member returning None the recaster would give a suppressed None,
which differs from the returned tuple.  The last conjunct confirms that
attribute dispatch on this ensemble does hand out the bound dispatcher. -/
theorem wrapper_call_returns_plain_tuple :
    wrapperCall constNoneEnv twoCallEns "f" false none none [] =
      .ok (.callTuple [.vnone, .vnone]) ∧
    recastList [PyObj.vnone, .vnone] = DispatchResult.suppressedNone ∧
    (DispatchResult.callTuple [.vnone, .vnone]) ≠ DispatchResult.suppressedNone ∧
    ensGetattr twoCallEns "f" = .ok (.wrapperOf "f") :=
  ⟨rfl, rfl, by decide, rfl⟩

/-! ## Dict and instance-dict lemmas -/

theorem dlookup_dinsert_self (d : Dict) (k : String) (v : PyObj) :
    dlookup (dinsert d k v) k = some v := by
  induction d with
  | nil => simp [dinsert, dlookup]
  | cons kv d ih =>
      obtain ⟨k', v'⟩ := kv
      by_cases h : k' = k
      · simp [dinsert, h, dlookup]
      · simp [dinsert, h, dlookup, ih]

theorem dlookup_dinsert_ne (d : Dict) (k k' : String) (v : PyObj) (h : k' ≠ k) :
    dlookup (dinsert d k v) k' = dlookup d k' := by
  induction d with
  | nil => simp [dinsert, dlookup, Ne.symm h]
  | cons kv d ih =>
      obtain ⟨k0, v0⟩ := kv
      by_cases h0 : k0 = k
      · subst h0
        have hk : k0 ≠ k' := fun hc => h hc.symm
        simp [dinsert, dlookup, hk]
      · by_cases h1 : k0 = k'
        · simp [dinsert, h0, dlookup, h1, h]
        · simp [dinsert, h0, dlookup, h1, ih]

theorem dlookup_ddel_ne (d : Dict) (k k' : String) (h : k' ≠ k) :
    dlookup (ddel d k) k' = dlookup d k' := by
  induction d with
  | nil => simp [ddel]
  | cons kv d ih =>
      obtain ⟨k0, v0⟩ := kv
      by_cases h0 : k0 = k
      · subst h0
        have hk : k0 ≠ k' := fun hc => h hc.symm
        simp [ddel, dlookup, hk]
      · by_cases h1 : k0 = k'
        · simp [ddel, h0, dlookup, h1, h]
        · simp [ddel, h0, dlookup, h1, ih]

theorem odictLookup_insert_self (d : ODict) (k : PyObj) (v : DictVal) :
    odictLookup (odictInsert d k v) k = some v := by
  induction d with
  | nil => simp [odictInsert, odictLookup]
  | cons kv d ih =>
      obtain ⟨k', v'⟩ := kv
      by_cases h : k' = k
      · simp [odictInsert, h, odictLookup]
      · simp [odictInsert, h, odictLookup, ih]

theorem odictLookup_insert_ne (d : ODict) (k k' : PyObj) (v : DictVal) (h : k' ≠ k) :
    odictLookup (odictInsert d k v) k' = odictLookup d k' := by
  induction d with
  | nil => simp [odictInsert, odictLookup, Ne.symm h]
  | cons kv d ih =>
      obtain ⟨k0, v0⟩ := kv
      by_cases h0 : k0 = k
      · subst h0
        have hk : k0 ≠ k' := fun hc => h hc.symm
        simp [odictInsert, odictLookup, hk]
      · by_cases h1 : k0 = k'
        · simp [odictInsert, h0, odictLookup, h1, h]
        · simp [odictInsert, h0, odictLookup, h1, ih]

theorem stMembers_setMembers (st : EnsState) (ms : List Member) :
    stMembers (setMembers st ms) = ms := by
  simp [stMembers, setMembers, odictLookup_insert_self]

theorem stBasetype_setMembers (st : EnsState) (ms : List Member) :
    stBasetype (setMembers st ms) = stBasetype st := by
  unfold stBasetype setMembers
  rw [odictLookup_insert_ne _ _ _ _ (by decide)]

theorem stIdkey_setMembers (st : EnsState) (ms : List Member) :
    stIdkey (setMembers st ms) = stIdkey st := by
  unfold stIdkey setMembers
  rw [odictLookup_insert_ne _ _ _ _ (by decide)]

/-! ## Claim C8 -/

/-- Counterexample to claim C8: removing the absent key Z from a two-member
ensemble is indeed a no-op that raises nothing, but the call returns True
(the confirmation that the member is absent afterwards), not a failure
status; in particular it does not return False. -/
theorem removeMember_absent_returns_true_cex :
    removeMember ensAB (.key "Z") = .ok (ensAB, true) ∧
    removeMember ensAB (.key "Z") ≠ .ok (ensAB, false) :=
  ⟨rfl, by decide⟩

/-- Claim C8 as amended: for every ensemble and every basetype-conforming
member instance or id string that is truly absent (unknown to the member
list, the instance dict and the member ids), removeMember raises no
exception, performs no mutation, and returns True, the check that the
member is absent after the call. -/
theorem removeMember_absent_noop (st : EnsState) (x : MemberOrKey)
    (h : trulyAbsent st x = true) :
    removeMember st x = .ok (st, true) := by
  cases x with
  | mem m =>
      simp only [trulyAbsent, Bool.and_eq_true] at h
      obtain ⟨⟨⟨hcls, hsome⟩, hnm⟩, hnone⟩ := h
      have hclsP : m.cls = stBasetype st := by simpa using hcls
      have hnmP : m ∉ stMembers st := by simpa using hnm
      obtain ⟨idv, hidv⟩ := Option.isSome_iff_exists.mp hsome
      rw [hidv] at hnone
      have hnoneP : odictLookup st.odict idv = none := by
        simpa [Option.isNone_iff_eq_none] using hnone
      have hhm : hasMember st (.mem m) = .ok false := by
        simp only [hasMember, getAttrM, hidv]
        rw [if_pos hclsP]
        simp only [exBindOk]
        rw [if_neg hnmP]
        simp [hnoneP]
        rfl
      have htok : (m.cls == stBasetype st) = true := by simpa using hclsP
      simp only [removeMember]
      simp [htok, hhm, exBindOk]
  | key s =>
      simp only [trulyAbsent, Bool.and_eq_true] at h
      obtain ⟨⟨hbt, hnone⟩, hmatch⟩ := h
      have hbtP : ¬ (stBasetype st = strCls) := by
        intro hc
        simp [hc] at hbt
      have hnoneP : odictLookup st.odict (.vstr s) = none := by
        simpa [Option.isNone_iff_eq_none] using hnone
      cases hids : allIds (stMembers st) (stIdkey st) with
      | error e => rw [hids] at hmatch; simp at hmatch
      | ok ids =>
          rw [hids] at hmatch
          have hnotin : (PyObj.vstr s) ∉ ids := by simpa using hmatch
          have hhm : hasMember st (.key s) = .ok false := by
            simp only [hasMember]
            rw [if_neg hbtP, hnoneP, hids]
            simp only [exBindOk]
            rw [if_neg hnotin]
            rfl
          simp only [removeMember]
          simp [hhm, exBindOk]

/-- Witness for removeMember_absent_noop: both an absent key and an absent
member instance on the concrete two-member ensemble. -/
theorem removeMember_absent_noop_witness :
    trulyAbsent ensAB (.key "Z") = true ∧
    removeMember ensAB (.key "Z") = .ok (ensAB, true) ∧
    trulyAbsent ensAB (.mem memZ) = true ∧
    removeMember ensAB (.mem memZ) = .ok (ensAB, true) :=
  ⟨by decide, removeMember_absent_noop ensAB (.key "Z") (by decide),
   by decide, removeMember_absent_noop ensAB (.mem memZ) (by decide)⟩

/-! ## Claim C10 -/

theorem mem_insertAt_self {a : Type} : ∀ (n : Nat) (x : a) (l : List a), x ∈ insertAt n x l
  | 0, _, _ => List.mem_cons_self _ _
  | _ + 1, _, [] => List.mem_cons_self _ _
  | n + 1, x, y :: l => List.mem_cons_of_mem y (mem_insertAt_self n x l)

theorem mem_insertAt_of_mem {a : Type} :
    ∀ (n : Nat) (x z : a) (l : List a), z ∈ l → z ∈ insertAt n x l
  | 0, _, _, _, h => List.mem_cons_of_mem _ h
  | _ + 1, _, _, [], h => absurd h (List.not_mem_nil _)
  | n + 1, x, z, y :: l, h => by
      rcases List.mem_cons.mp h with h1 | h2
      · exact h1 ▸ List.mem_cons_self _ _
      · exact List.mem_cons_of_mem y (mem_insertAt_of_mem n x z l h2)

theorem mem_insert_state_facts (st : EnsState) (ms' : List Member) (k : PyObj) (m : Member)
    (hknm : k ≠ .vstr "members") (hknb : k ≠ .vstr "basetype") (hkni : k ≠ .vstr "idkey") :
    stMembers (⟨odictInsert (setMembers st ms').odict k (.mem m)⟩ : EnsState) = ms' ∧
    stBasetype (⟨odictInsert (setMembers st ms').odict k (.mem m)⟩ : EnsState) = stBasetype st ∧
    stIdkey (⟨odictInsert (setMembers st ms').odict k (.mem m)⟩ : EnsState) = stIdkey st ∧
    odictLookup (odictInsert (setMembers st ms').odict k (.mem m)) k = some (.mem m) := by
  refine ⟨?_, ?_, ?_, ?_⟩
  · unfold stMembers
    rw [show ((⟨odictInsert (setMembers st ms').odict k (.mem m)⟩ : EnsState).odict
          = odictInsert (setMembers st ms').odict k (.mem m)) from rfl]
    rw [odictLookup_insert_ne _ _ _ _ (Ne.symm hknm)]
    have := stMembers_setMembers st ms'
    unfold stMembers at this
    exact this
  · unfold stBasetype
    rw [show ((⟨odictInsert (setMembers st ms').odict k (.mem m)⟩ : EnsState).odict
          = odictInsert (setMembers st ms').odict k (.mem m)) from rfl]
    rw [odictLookup_insert_ne _ _ _ _ (Ne.symm hknb)]
    have := stBasetype_setMembers st ms'
    unfold stBasetype at this
    exact this
  · unfold stIdkey
    rw [show ((⟨odictInsert (setMembers st ms').odict k (.mem m)⟩ : EnsState).odict
          = odictInsert (setMembers st ms').odict k (.mem m)) from rfl]
    rw [odictLookup_insert_ne _ _ _ _ (Ne.symm hkni)]
    have := stIdkey_setMembers st ms'
    unfold stIdkey at this
    exact this
  · exact odictLookup_insert_self _ _ _

/-- Claim C10: construction validates member ids (two members sharing an id
make __init__ raise AttributeError), while addMember and insertMember only
check the member against the basetype: adding or inserting a member whose
id key equals an existing member id succeeds and returns True, keeps both
members in the ordered list, and repoints the name-index entry for that id
to the newly added member, so the id uniqueness invariant established at
construction is not preserved by add or insert. -/
theorem add_insert_break_id_uniqueness
    (st : EnsState) (m0 m : Member) (k : PyObj) (i : Int)
    (hms : odictLookup st.odict (.vstr "members") = some (.membersList (stMembers st)))
    (hb : odictLookup st.odict (.vstr "basetype") = some (.clsTag (stBasetype st)))
    (hie : odictLookup st.odict (.vstr "idkey") = some (.val (.vstr (stIdkey st))))
    (hcls : m.cls = stBasetype st)
    (hid : dlookup m.attrs (stIdkey st) = some k)
    (hk : odictLookup st.odict k = some (.mem m0))
    (hm0 : m0 ∈ stMembers st)
    (ma mb : Member) (bt : Nat) (ik s : String)
    (hma : ma.cls = bt) (hmb : mb.cls = bt)
    (hikk : ik ≠ "idkeys")
    (hidA : dlookup ma.attrs ik = some (.vstr s))
    (hidB : dlookup mb.attrs ik = some (.vstr s))
    (hs1 : s ≠ "members") (hs2 : s ≠ "ens_name") (hs3 : s ≠ "ens_title")
    (hs4 : s ≠ "basetype") (hs5 : s ≠ "idkey") :
    (∃ stA, addMember st m = .ok (stA, true) ∧
       stMembers stA = stMembers st ++ [m] ∧ m0 ∈ stMembers stA ∧ m ∈ stMembers stA ∧
       odictLookup stA.odict k = some (.mem m)) ∧
    (∃ stI, insertMember st i m = .ok (stI, true) ∧
       stMembers stI = insertAt (pyInsPos i (stMembers st).length) m (stMembers st) ∧
       m0 ∈ stMembers stI ∧ m ∈ stMembers stI ∧
       odictLookup stI.odict k = some (.mem m)) ∧
    ensembleInit [ma, mb] none none (some bt) (some ik) [] =
      .error (.attributeError ("Cannot overwrite existing attribute " ++ s ++ ".")) := by
  have hknm : k ≠ PyObj.vstr "members" := by
    intro hc
    subst hc
    rw [hms] at hk
    simp at hk
  have hknb : k ≠ PyObj.vstr "basetype" := by
    intro hc
    subst hc
    rw [hb] at hk
    simp at hk
  have hkni : k ≠ PyObj.vstr "idkey" := by
    intro hc
    subst hc
    rw [hie] at hk
    simp at hk
  refine ⟨?_, ?_, ?_⟩
  · -- addMember
    obtain ⟨hf1, hf2, hf3, hf4⟩ :=
      mem_insert_state_facts st (stMembers st ++ [m]) k m hknm hknb hkni
    have hmemm : m ∈ stMembers (⟨odictInsert (setMembers st (stMembers st ++ [m])).odict
        k (.mem m)⟩ : EnsState) := by
      rw [hf1]
      exact List.mem_append_right _ (List.mem_singleton.mpr rfl)
    have hhm : hasMember (⟨odictInsert (setMembers st (stMembers st ++ [m])).odict
        k (.mem m)⟩ : EnsState) (.mem m) = .ok true := by
      simp only [hasMember]
      rw [hf2, if_pos hcls]
      simp only [getAttrM, hf3, hid]
      simp only [exBindOk]
      rw [if_pos hmemm]
      simp [hf4]
      rfl
    refine ⟨_, ?_, hf1, ?_, hmemm, hf4⟩
    · simp only [addMember]
      rw [if_neg (fun hc => hc hcls)]
      simp only [getAttrM, stIdkey_setMembers, hid]
      simp only [exBindOk]
      rw [hhm]
      simp only [exBindOk]
      rfl
    · rw [hf1]
      exact List.mem_append_left _ hm0
  · -- insertMember
    obtain ⟨hf1, hf2, hf3, hf4⟩ :=
      mem_insert_state_facts st (insertAt (pyInsPos i (stMembers st).length) m (stMembers st))
        k m hknm hknb hkni
    have hmemm : m ∈ stMembers (⟨odictInsert (setMembers st
        (insertAt (pyInsPos i (stMembers st).length) m (stMembers st))).odict
        k (.mem m)⟩ : EnsState) := by
      rw [hf1]
      exact mem_insertAt_self _ _ _
    have hhm : hasMember (⟨odictInsert (setMembers st
        (insertAt (pyInsPos i (stMembers st).length) m (stMembers st))).odict
        k (.mem m)⟩ : EnsState) (.mem m) = .ok true := by
      simp only [hasMember]
      rw [hf2, if_pos hcls]
      simp only [getAttrM, hf3, hid]
      simp only [exBindOk]
      rw [if_pos hmemm]
      simp [hf4]
      rfl
    refine ⟨_, ?_, hf1, ?_, hmemm, hf4⟩
    · simp only [insertMember]
      rw [if_neg (fun hc => hc hcls)]
      simp only [getAttrM, stIdkey_setMembers, hid]
      simp only [exBindOk]
      rw [hhm]
      simp only [exBindOk]
      rfl
    · rw [hf1]
      exact mem_insertAt_of_mem _ _ _ _ hm0
  · -- construction with a duplicate id raises
    simp only [ensembleInit, exBindPure, Option.getD_some]
    have hall : ([ma, mb].all (fun mm => mm.cls == bt)) = true := by
      simp [hma, hmb]
    rw [hall]
    simp only [Bool.not_true, Bool.and_false, Bool.false_eq_true, if_false]
    simp only [List.map, addIds, getAttrM, memSetAttr]
    rw [dlookup_dinsert_ne _ _ _ _ hikk, hidA]
    simp only [exBindOk]
    have hl0 : EnsembleSpec.odictLookup
        ([(PyObj.vstr "members", DictVal.membersList
            [⟨ma.cls, dinsert ma.attrs "idkeys" (.vlist [])⟩,
             ⟨mb.cls, dinsert mb.attrs "idkeys" (.vlist [])⟩]),
          (PyObj.vstr "ens_name", DictVal.val (.vstr (none.getD ""))),
          (PyObj.vstr "ens_title", DictVal.val (.vstr (none.getD ""))),
          (PyObj.vstr "basetype", DictVal.clsTag bt),
          (PyObj.vstr "idkey", DictVal.val (.vstr ik))] ++ [])
        (PyObj.vstr s) = none := by
      simp [odictLookup, Ne.symm hs1, Ne.symm hs2, Ne.symm hs3, Ne.symm hs4, Ne.symm hs5]
    rw [hl0]
    simp only [Option.isSome_none, Bool.false_eq_true, if_false]
    rw [dlookup_dinsert_ne _ _ _ _ hikk, hidB]
    simp only [exBindOk]
    rw [odictLookup_insert_self]
    simp only [Option.isSome_some, if_true]
    rfl

/-- Witness for add_insert_break_id_uniqueness: adding memA2, which carries
the id A of the existing member memA, to the concrete two-member ensemble. -/
theorem add_insert_break_id_uniqueness_witness :
    (∃ stA, addMember ensAB memA2 = .ok (stA, true) ∧
       stMembers stA = stMembers ensAB ++ [memA2] ∧ memA ∈ stMembers stA ∧
       memA2 ∈ stMembers stA ∧ odictLookup stA.odict (.vstr "A") = some (.mem memA2)) ∧
    (∃ stI, insertMember ensAB 0 memA2 = .ok (stI, true) ∧
       stMembers stI = insertAt (pyInsPos 0 (stMembers ensAB).length) memA2 (stMembers ensAB) ∧
       memA ∈ stMembers stI ∧ memA2 ∈ stMembers stI ∧
       odictLookup stI.odict (.vstr "A") = some (.mem memA2)) ∧
    ensembleInit [memA, memA2] none none (some 7) (some "name") [] =
      .error (.attributeError ("Cannot overwrite existing attribute " ++ "A" ++ ".")) :=
  add_insert_break_id_uniqueness ensAB memA memA2 (.vstr "A") 0
    (by decide) (by decide) (by decide) (by decide) (by decide) (by decide) (by decide)
    memA memA2 7 "name" "A"
    (by decide) (by decide) (by decide) (by decide) (by decide)
    (by decide) (by decide) (by decide) (by decide) (by decide)

/-! ## Skeleton-dict lemmas for the argument expander -/

theorem skel_congr (ns : List String) (f g : String → PyObj)
    (h : ∀ n ∈ ns, f n = g n) : skel ns f = skel ns g := by
  unfold skel
  exact List.map_congr_left (fun n hn => by rw [h n hn])

theorem dlookup_skel_mem (ns : List String) (f : String → PyObj) (n : String)
    (hnd : ns.Nodup) (hn : n ∈ ns) : dlookup (skel ns f) n = some (f n) := by
  induction ns with
  | nil => cases hn
  | cons a t ih =>
      rcases List.mem_cons.mp hn with h | h
      · subst h
        simp [skel, dlookup]
      · have hne : a ≠ n := by
          intro hc
          subst hc
          exact (List.nodup_cons.mp hnd).1 h
        simp only [skel, List.map, dlookup]
        rw [if_neg hne]
        exact ih (List.nodup_cons.mp hnd).2 h

theorem dlookup_skel_not_mem (ns : List String) (f : String → PyObj) (n : String)
    (hn : n ∉ ns) : dlookup (skel ns f) n = none := by
  induction ns with
  | nil => rfl
  | cons a t ih =>
      have hne : a ≠ n := fun hc => hn (hc ▸ List.mem_cons_self a t)
      simp only [skel, List.map, dlookup]
      rw [if_neg hne]
      exact ih (fun hc => hn (List.mem_cons_of_mem a hc))

theorem dinsert_skel (ns : List String) (f : String → PyObj) (n : String) (v : PyObj)
    (hnd : ns.Nodup) (hn : n ∈ ns) :
    dinsert (skel ns f) n v = skel ns (fupd f n v) := by
  induction ns with
  | nil => cases hn
  | cons a t ih =>
      rcases List.mem_cons.mp hn with h | h
      · subst h
        simp only [skel, List.map, dinsert, if_pos rfl]
        have hsk : skel t f = skel t (fupd f n v) := by
          apply skel_congr
          intro m hm
          have hmn : m ≠ n := by
            intro hc
            subst hc
            exact (List.nodup_cons.mp hnd).1 hm
          simp [fupd, hmn]
        rw [show ((n, v) : String × PyObj) = (n, fupd f n v n) by simp [fupd]]
        rw [if_pos trivial]
        exact congrArg (fun l => (n, fupd f n v n) :: l) hsk
      · have hne : a ≠ n := by
          intro hc
          subst hc
          exact (List.nodup_cons.mp hnd).1 h
        simp only [skel, List.map, dinsert]
        rw [if_neg hne]
        rw [show skel t f = List.map (fun n => (n, f n)) t from rfl] at ih
        rw [ih (List.nodup_cons.mp hnd).2 h]
        rw [show fupd f n v a = f a by simp [fupd, hne]]
        rfl

theorem dlookup_self_of_mem (d : Dict) (k : String) (v : PyObj)
    (hnd : nodupKeys d) (hm : (k, v) ∈ d) : dlookup d k = some v := by
  induction d with
  | nil => cases hm
  | cons kv t ih =>
      obtain ⟨k0, v0⟩ := kv
      rcases List.mem_cons.mp hm with h | h
      · obtain ⟨h1, h2⟩ := Prod.mk.inj h.symm
        simp [dlookup, h1, h2]
      · have hk0 : k0 ≠ k := by
          intro hc
          subst hc
          have : k0 ∈ dkeys t := List.mem_map.mpr ⟨(k0, v), h, rfl⟩
          exact (List.nodup_cons.mp hnd).1 this
        simp only [dlookup]
        rw [if_neg hk0]
        exact ih (List.nodup_cons.mp hnd).2 h

theorem dlookup_none_of_not_keys (d : Dict) (k : String) (h : k ∉ dkeys d) :
    dlookup d k = none := by
  induction d with
  | nil => rfl
  | cons kv t ih =>
      obtain ⟨k0, v0⟩ := kv
      have hk0 : k0 ≠ k := by
        intro hc
        exact h (hc ▸ List.mem_cons_self k0 (dkeys t))
      simp only [dlookup]
      rw [if_neg hk0]
      exact ih (fun hc => h (List.mem_cons_of_mem k0 hc))

theorem sum_map_const {A : Type} (l : List A) (c : Nat) :
    (l.map (fun _ => c)).sum = l.length * c := by
  induction l with
  | nil => simp
  | cons a t ih => simp [ih, Nat.succ_mul, Nat.add_comm]

theorem flatMap_congr_left {A B : Type} (l : List A) (g1 g2 : A → List B)
    (h : ∀ a ∈ l, g1 a = g2 a) : l.flatMap g1 = l.flatMap g2 := by
  induction l with
  | nil => rfl
  | cons a t ih =>
      simp only [List.flatMap_cons]
      rw [h a (List.mem_cons_self a t), ih (fun b hb => h b (List.mem_cons_of_mem a hb))]

theorem termvals_length (ll : List String) (f : String → PyObj) (hnd : ll.Nodup) :
    (termvals ll f).length = (ll.map (fun n => (pyElems (f n)).length)).prod := by
  induction ll generalizing f with
  | nil => simp [termvals]
  | cons n t ih =>
      simp only [termvals, List.length_flatMap]
      rw [show List.map (List.length ∘ fun v => termvals t (fupd f n v)) (pyElems (f n))
            = List.map (fun _ => (t.map (fun m => (pyElems (f m)).length)).prod)
                (pyElems (f n)) from
          List.map_congr_left (fun v _ => by
            show (termvals t (fupd f n v)).length = _
            rw [ih (fupd f n v) (List.nodup_cons.mp hnd).2]
            congr 1
            apply List.map_congr_left
            intro m hm
            have hmn : m ≠ n := by
              intro hc
              subst hc
              exact (List.nodup_cons.mp hnd).1 hm
            simp [fupd, hmn])]
      rw [sum_map_const]
      simp [List.prod_cons]

theorem choiceLists_length (cols : List (String × List PyObj)) :
    (choiceLists cols).length = (cols.map (fun p => p.2.length)).prod := by
  induction cols with
  | nil => simp [choiceLists]
  | cons p t ih =>
      obtain ⟨n, xs⟩ := p
      simp only [choiceLists, List.length_flatMap]
      rw [show List.map (List.length ∘ fun x => (choiceLists t).map (fun c => (n, x) :: c)) xs
            = List.map (fun _ => (choiceLists t).length) xs from
          List.map_congr_left (fun x _ => by simp)]
      rw [sum_map_const, ih]
      simp [List.prod_cons]

theorem choiceLists_keys (cols : List (String × List PyObj)) :
    ∀ c ∈ choiceLists cols, dkeys c = cols.map Prod.fst := by
  induction cols with
  | nil =>
      intro c hc
      simp only [choiceLists, List.mem_singleton] at hc
      subst hc
      rfl
  | cons p t ih =>
      obtain ⟨n, xs⟩ := p
      intro c hc
      simp only [choiceLists, List.mem_flatMap, List.mem_map] at hc
      obtain ⟨x, _, c0, hc0, rfl⟩ := hc
      simp only [dkeys, List.map]
      rw [show List.map Prod.fst c0 = dkeys c0 from rfl, ih c0 hc0]

theorem termvals_col (ll : List String) (f : String → PyObj) (n : String) (hnd : ll.Nodup) :
    (termvals ll f).map (fun h => h n)
      = (choiceLists (ll.map (fun x => (x, pyElems (f x))))).map
          (fun c => (dlookup c n).getD (f n)) := by
  induction ll generalizing f with
  | nil => simp [termvals, choiceLists, dlookup]
  | cons x t ih =>
      obtain ⟨hxt, htnd⟩ := List.nodup_cons.mp hnd
      simp only [termvals, List.map, choiceLists, List.map_flatMap, List.map_map]
      apply flatMap_congr_left
      intro v _
      have hcols : t.map (fun y => (y, pyElems (fupd f x v y)))
          = t.map (fun y => (y, pyElems (f y))) := by
        apply List.map_congr_left
        intro y hy
        have hyx : y ≠ x := by
          intro hc
          subst hc
          exact hxt hy
        simp [fupd, hyx]
      by_cases hn : n = x
      · subst hn
        rw [ih (fupd f n v) htnd, hcols]
        apply List.map_congr_left
        intro c hc
        have hkeys : dkeys c = t := by
          have h0 := choiceLists_keys _ c hc
          rw [List.map_map] at h0
          rw [h0]
          rw [show (Prod.fst ∘ fun y => (y, pyElems (f y))) = fun (y : String) => y from rfl]
          exact List.map_id t
        have hnkeys : n ∉ dkeys c := by
          rw [hkeys]
          exact hxt
        rw [dlookup_none_of_not_keys c n hnkeys]
        simp only [Function.comp_apply]
        simp [fupd, dlookup]
      · rw [ih (fupd f x v) htnd, hcols]
        apply List.map_congr_left
        intro c _
        rw [show fupd f x v n = f n by simp [fupd, hn]]
        simp only [Function.comp_apply]
        rw [show dlookup ((x, v) :: c) n = dlookup c n by
          simp only [dlookup]
          rw [if_neg (fun hc => hn hc.symm)]]

theorem ldAppend_skel (ns : List String) (g : String → List PyObj) (n : String) (v : PyObj)
    (hnd : ns.Nodup) (hn : n ∈ ns) :
    ldAppend (skel ns (fun m => .vlist (g m))) n v
      = skel ns (fun m => .vlist (if m = n then g n ++ [v] else g m)) := by
  unfold ldAppend
  rw [dlookup_skel_mem ns _ n hnd hn]
  show dinsert (skel ns (fun m => PyObj.vlist (g m))) n (PyObj.vlist (g n ++ [v]))
      = skel ns (fun m => PyObj.vlist (if m = n then g n ++ [v] else g m))
  rw [dinsert_skel ns _ n (.vlist (g n ++ [v])) hnd hn]
  apply skel_congr
  intro m _
  by_cases h : m = n
  · subst h
    simp [fupd]
  · simp [fupd, h]

theorem foldl_ldAppend_skel (ns : List String) (f : String → PyObj) (hnd : ns.Nodup) :
    ∀ (ll : List String) (g : String → List PyObj), (∀ n ∈ ll, n ∈ ns) → ll.Nodup →
    List.foldl (fun ld n => ldAppend ld n (f n)) (skel ns (fun m => .vlist (g m))) ll
      = skel ns (fun m => .vlist (if m ∈ ll then g m ++ [f m] else g m)) := by
  intro ll
  induction ll with
  | nil =>
      intro g _ _
      simp only [List.foldl_nil]
      apply skel_congr
      intro m _
      simp
  | cons x t ih =>
      intro g hsub hllnd
      simp only [List.foldl_cons]
      rw [ldAppend_skel ns g x (f x) hnd (hsub x (List.mem_cons_self x t))]
      rw [ih (fun m => if m = x then g x ++ [f x] else g m)
            (fun n hn => hsub n (List.mem_cons_of_mem x hn)) (List.nodup_cons.mp hllnd).2]
      apply skel_congr
      intro m _
      by_cases h1 : m ∈ t
      · have hmx : m ≠ x := fun hc => (List.nodup_cons.mp hllnd).1 (hc ▸ h1)
        simp [h1, hmx, List.mem_cons]
      · by_cases h2 : m = x
        · subst h2
          simp [h1, List.mem_cons]
        · simp [h1, h2, List.mem_cons]

theorem appendAll_skel (ns : List String) (g : String → List PyObj) (f : String → PyObj)
    (hnd : ns.Nodup) :
    appendAll (skel ns (fun m => .vlist (g m))) (skel ns f)
      = skel ns (fun m => .vlist (g m ++ [f m])) := by
  unfold appendAll
  rw [show skel ns f = List.map (fun n => (n, f n)) ns from rfl, List.foldl_map]
  exact (foldl_ldAppend_skel ns f hnd ns g (fun n hn => hn) hnd).trans
    (skel_congr _ _ _ (fun m hm => by simp [hm]))

theorem loopRec_skel (ns : List String) (hnd : ns.Nodup) :
    ∀ (ll : List String), (∀ n ∈ ll, n ∈ ns) → ll.Nodup →
    ∀ (f : String → PyObj) (g : String → List PyObj),
    loopRec ll (skel ns (fun m => .vlist (g m))) (skel ns f)
      = skel ns (fun m => .vlist (g m ++ (termvals ll f).map (fun h => h m))) := by
  intro ll
  induction ll with
  | nil =>
      intro _ _ f g
      simp only [loopRec]
      rw [appendAll_skel ns g f hnd]
      apply skel_congr
      intro m _
      simp [termvals]
  | cons x t ih =>
      intro hsub hllnd f g
      have hx : x ∈ ns := hsub x (List.mem_cons_self x t)
      have hsub2 : ∀ n ∈ t, n ∈ ns := fun n hn => hsub n (List.mem_cons_of_mem x hn)
      obtain ⟨hxt, htnd⟩ := List.nodup_cons.mp hllnd
      simp only [loopRec]
      rw [dlookup_skel_mem ns f x hnd hx]
      simp only [Option.getD_some]
      simp only [show ∀ v, dinsert (skel ns f) x v = skel ns (fupd f x v) from
        fun v => dinsert_skel ns f x v hnd hx]
      simp only [termvals]
      generalize pyElems (f x) = vs
      induction vs generalizing g with
      | nil =>
          simp only [List.foldl_nil, List.flatMap_nil]
          apply skel_congr
          intro m _
          simp
      | cons v vs ihv =>
          simp only [List.foldl_cons]
          rw [ih hsub2 htnd (fupd f x v) g]
          rw [ihv (fun m => g m ++ (termvals t (fupd f x v)).map (fun h => h m))]
          apply skel_congr
          intro m _
          simp [List.flatMap_cons, List.map_append, List.append_assoc]

theorem dmem_ddel_ne (d : Dict) (k k' : String) (h : k' ≠ k) :
    dmem (ddel d k) k' = dmem d k' := by
  unfold dmem
  rw [dlookup_ddel_ne d k k' h]

theorem parScan_names :
    ∀ (l : List String) (par : List (String × List String)) (kwtmp : Dict),
      parScan (l.map ExpEntry.name) par kwtmp = .ok (par, kwtmp)
  | [], _, _ => rfl
  | _ :: t, par, kwtmp => parScan_names t par kwtmp

theorem delAll_ok (ns : List String) (d : Dict) (hnd : ns.Nodup)
    (hmem : ∀ n ∈ ns, dmem d n = true) :
    delAll ns d = .ok (ns.foldl (fun acc n => ddel acc n) d) := by
  induction ns generalizing d with
  | nil => rfl
  | cons n t ih =>
      simp only [delAll, List.foldl_cons]
      rw [hmem n (List.mem_cons_self n t)]
      simp only [if_true]
      apply ih (ddel d n) (List.nodup_cons.mp hnd).2
      intro m hm
      have hmn : m ≠ n := by
        intro hc
        subst hc
        exact (List.nodup_cons.mp hnd).1 hm
      rw [dmem_ddel_ne d n m hmn]
      exact hmem m (List.mem_cons_of_mem n hm)

theorem filterMap_if_mem (ns : List String) (d : Dict)
    (hmem : ∀ n ∈ ns, dmem d n = true) :
    ns.filterMap (fun s => if dmem d s then some s else none) = ns := by
  induction ns with
  | nil => rfl
  | cons n t ih =>
      simp only [List.filterMap_cons]
      rw [hmem n (List.mem_cons_self n t)]
      simp only [if_true]
      rw [ih (fun m hm => hmem m (List.mem_cons_of_mem n hm))]

theorem pyLen_isSeq (v : PyObj) (h : isSeq v = true) :
    pyLen v = .ok (pyElems v).length := by
  cases v with
  | vlist xs => rfl
  | vtup xs => rfl
  | vnone => simp [isSeq] at h
  | atom n => simp [isSeq] at h
  | vstr s => simp [isSeq] at h
  | fn n => simp [isSeq] at h

theorem checkSeqs_ok (ns : List String) (d : Dict)
    (h : ∀ n ∈ ns, isSeq ((dlookup d n).getD .vnone) = true) :
    checkSeqs ns d = .ok () := by
  induction ns with
  | nil => rfl
  | cons n t ih =>
      simp only [checkSeqs]
      rw [h n (List.mem_cons_self n t)]
      simp only [if_true]
      exact ih (fun m hm => h m (List.mem_cons_of_mem n hm))

theorem prepareList_names_ok (ns : List String) (kwargs : Dict) (hnd : ns.Nodup)
    (hseq : ∀ n ∈ ns, isSeq ((dlookup kwargs n).getD .vnone) = true) :
    prepareList (ns.map ExpEntry.name) kwargs
      = .ok (ns, skel ns (fun n => (dlookup kwargs n).getD .vnone),
             ns.foldl (fun acc n => ddel acc n) kwargs) := by
  have hmem : ∀ n ∈ ns, dmem kwargs n = true := by
    intro n hn
    have hs := hseq n hn
    unfold dmem
    cases hl : dlookup kwargs n with
    | none => rw [hl] at hs; simp [isSeq] at hs
    | some v => simp
  unfold prepareList
  rw [show (ns.map ExpEntry.name).filterMap (fun e =>
        match e with
        | .name s => if dmem kwargs s then some s else none
        | .group _ => none)
      = ns.filterMap (fun s => if dmem kwargs s then some s else none) from
    List.filterMap_map _ _ _]
  rw [filterMap_if_mem ns kwargs hmem]
  have hck : checkSeqs ns (ns.map (fun s => (s, (dlookup kwargs s).getD .vnone))) = .ok () := by
    apply checkSeqs_ok
    intro n hn
    rw [show ns.map (fun s => (s, (dlookup kwargs s).getD PyObj.vnone))
          = skel ns (fun s => (dlookup kwargs s).getD PyObj.vnone) from rfl]
    rw [dlookup_skel_mem ns _ n hnd hn]
    simp only [Option.getD_some]
    exact hseq n hn
  simp only [delAll_ok ns kwargs hnd hmem, exBindOk, hck]
  rfl

theorem prodLens_ok (ns : List String) (f : String → PyObj) (hnd : ns.Nodup) :
    ∀ (ll : List String), (∀ n ∈ ll, n ∈ ns) → (∀ n ∈ ll, isSeq (f n) = true) →
    prodLens ll (skel ns f) = .ok ((ll.map (fun n => (pyElems (f n)).length)).prod) := by
  intro ll
  induction ll with
  | nil => intro _ _; rfl
  | cons n t ih =>
      intro hsub hseq
      simp only [prodLens]
      rw [dlookup_skel_mem ns f n hnd (hsub n (List.mem_cons_self n t))]
      show (pyLen (f n) >>= fun a =>
          prodLens t (skel ns f) >>= fun m => pure (a * m)) = _
      rw [pyLen_isSeq (f n) (hseq n (List.mem_cons_self n t))]
      simp only [exBindOk]
      rw [ih (fun m hm => hsub m (List.mem_cons_of_mem n hm))
             (fun m hm => hseq m (List.mem_cons_of_mem n hm))]
      simp only [exBindOk]
      rfl

theorem checkLens_ok (ll : List String) (ld : Dict) (L : Nat)
    (h : ∀ el ∈ ll, ∃ xs, dlookup ld el = some (.vlist xs) ∧ xs.length = L) :
    checkLens ll ld L = .ok () := by
  induction ll with
  | nil => rfl
  | cons n t ih =>
      obtain ⟨xs, hx, hlen⟩ := h n (List.mem_cons_self n t)
      simp only [checkLens]
      rw [hx]
      simp only [pyLen, exBindOk]
      rw [if_pos hlen]
      exact ih (fun m hm => h m (List.mem_cons_of_mem n hm))

theorem checkValLens_ok (ld : List (String × PyObj)) (L : Nat)
    (h : ∀ kv ∈ ld, ∃ xs, kv.2 = PyObj.vlist xs ∧ xs.length = L) :
    checkValLens ld L = .ok () := by
  induction ld with
  | nil => rfl
  | cons kv t ih =>
      obtain ⟨k0, v0⟩ := kv
      obtain ⟨xs, hx, hlen⟩ := h (k0, v0) (List.mem_cons_self _ t)
      simp only at hx
      subst hx
      simp only [checkValLens, pyLen, exBindOk]
      rw [if_pos hlen]
      exact ih (fun kv hkv => h kv (List.mem_cons_of_mem _ hkv))

theorem all_dmem_skel (ns : List String) (f g : String → PyObj) (hnd : ns.Nodup) :
    (skel ns g).all (fun kv => dmem (skel ns f) kv.1) = true := by
  rw [List.all_eq_true]
  intro kv hkv
  obtain ⟨n, hn, rfl⟩ := List.mem_map.mp hkv
  unfold dmem
  rw [dlookup_skel_mem ns f n hnd hn]
  rfl

theorem dmem_iff_mem_keys (d : Dict) (k : String) : dmem d k = true ↔ k ∈ dkeys d := by
  induction d with
  | nil => simp [dmem, dlookup, dkeys]
  | cons kv t ih =>
      obtain ⟨k0, v0⟩ := kv
      by_cases h : k0 = k
      · subst h
        simp [dmem, dlookup, dkeys]
      · simp only [dmem, dlookup, dkeys, List.map, List.mem_cons]
        rw [if_neg h]
        rw [show (dlookup t k).isSome = dmem t k from rfl]
        constructor
        · intro hx
          exact Or.inr (ih.mp hx)
        · intro hx
          rcases hx with hx | hx
          · exact absurd hx.symm h
          · exact ih.mpr hx

theorem dinsert_of_mem (d : Dict) (k : String) (v : PyObj) (hnd : nodupKeys d)
    (hmem : dmem d k = true) :
    dinsert d k v = d.map (fun kv => if kv.1 = k then (k, v) else kv) := by
  induction d with
  | nil => simp [dmem, dlookup] at hmem
  | cons kv t ih =>
      obtain ⟨k0, v0⟩ := kv
      by_cases h : k0 = k
      · subst h
        simp only [dinsert, if_pos rfl, List.map, if_pos rfl]
        have hk0 : k0 ∉ dkeys t := by
          have := hnd
          unfold nodupKeys dkeys at this
          exact (List.nodup_cons.mp this).1
        rw [List.map_congr_left (fun kv' hkv' => by
          have : kv'.1 ≠ k0 := by
            intro hc
            apply hk0
            exact hc ▸ List.mem_map.mpr ⟨kv', hkv', rfl⟩
          rw [if_neg this])]
        simp
      · have hmem2 : dmem t k = true := by
          unfold dmem dlookup at hmem
          rw [if_neg h] at hmem
          exact hmem
        have hnd2 : nodupKeys t := by
          unfold nodupKeys dkeys at hnd ⊢
          exact (List.nodup_cons.mp hnd).2
        simp only [dinsert, if_neg h, List.map]
        rw [ih hnd2 hmem2]

theorem dkeys_map_replace (d : Dict) (k : String) (v : PyObj) :
    dkeys (d.map (fun kv => if kv.1 = k then (k, v) else kv)) = dkeys d := by
  unfold dkeys
  rw [List.map_map]
  apply List.map_congr_left
  intro kv _
  by_cases h : kv.1 = k
  · simp [h]
  · simp [h]

theorem dupdate_skel (ns : List String) :
    ∀ (kwargs : Dict) (h : String → PyObj), nodupKeys kwargs →
    (∀ n ∈ ns, dmem kwargs n = true) →
    dupdate kwargs (skel ns h)
      = kwargs.map (fun kv => (kv.1, if kv.1 ∈ ns then h kv.1 else kv.2)) := by
  induction ns with
  | nil =>
      intro kwargs h _ _
      show dupdate kwargs [] = _
      unfold dupdate
      simp only [List.foldl_nil, List.not_mem_nil, if_false]
      rw [List.map_congr_left (fun kv _ => by rw [show ((kv.1, kv.2) : String × PyObj) = kv from rfl])]
      simp
  | cons n t ih =>
      intro kwargs h hnd hkeys
      show dupdate kwargs ((n, h n) :: skel t h) = _
      rw [show dupdate kwargs ((n, h n) :: skel t h)
            = dupdate (dinsert kwargs n (h n)) (skel t h) from rfl]
      rw [dinsert_of_mem kwargs n (h n) hnd (hkeys n (List.mem_cons_self n t))]
      have hnd2 : nodupKeys (kwargs.map (fun kv => if kv.1 = n then (n, h n) else kv)) := by
        unfold nodupKeys
        rw [dkeys_map_replace]
        exact hnd
      have hkeys2 : ∀ m ∈ t, dmem (kwargs.map (fun kv => if kv.1 = n then (n, h n) else kv)) m
          = true := by
        intro m hm
        rw [dmem_iff_mem_keys, dkeys_map_replace, ← dmem_iff_mem_keys]
        exact hkeys m (List.mem_cons_of_mem n hm)
      rw [ih (kwargs.map (fun kv => if kv.1 = n then (n, h n) else kv)) h hnd2 hkeys2]
      rw [List.map_map]
      apply List.map_congr_left
      intro kv _
      by_cases h1 : kv.1 = n
      · simp [Function.comp, h1, List.mem_cons]
      · simp [Function.comp, h1, List.mem_cons]

/-! ## Claim C1 -/

/-- Claim C1: with only plain-string outer names bound to sequences (and no
inner names, no legacy list), expandArgumentList returns exactly the full
Cartesian product of the outer sequences in nested-loop order, the
first-declared name varying slowest, every non-expanded kwarg repeated
verbatim in each mapping; the number of mappings is the product of the
sequence lengths. -/
theorem expand_outer_cartesian (kwargs : Dict) (ns : List String) (lproduct : String)
    (hnd : ns.Nodup) (hkw : nodupKeys kwargs)
    (hseq : ∀ n ∈ ns, isSeq ((dlookup kwargs n).getD .vnone) = true) :
    expandArgumentList none (some (ns.map ExpEntry.name)) none lproduct kwargs
      = .ok (outerProductSpec kwargs ns) ∧
    (outerProductSpec kwargs ns).length
      = (ns.map (fun n => (seqOf kwargs n).length)).prod := by
  have hlen : (outerProductSpec kwargs ns).length
      = (ns.map (fun n => (seqOf kwargs n).length)).prod := by
    unfold outerProductSpec
    rw [List.length_map, choiceLists_length, List.map_map]
    rfl
  refine ⟨?_, hlen⟩
  have hmem : ∀ n ∈ ns, dmem kwargs n = true := by
    intro n hn
    have hs := hseq n hn
    unfold dmem
    cases hl : dlookup kwargs n with
    | none => rw [hl] at hs; simp [isSeq] at hs
    | some v => simp
  by_cases hns : ns = []
  · subst hns
    have h1 : outerProductSpec kwargs [] = [kwargs] := by
      show [kwargs.map (fun kv => kv)] = [kwargs]
      rw [show (fun (kv : String × PyObj) => kv) = id from rfl, List.map_id]
    rw [h1]
    rfl
  · set f : String → PyObj := fun n => (dlookup kwargs n).getD .vnone with hf
    have hseq2 : ∀ n ∈ ns, isSeq (f n) = true := hseq
    have hgate : (((none : Option (List ExpEntry)).getD []).isEmpty
        && ((some (ns.map ExpEntry.name)).getD []).isEmpty
        && ((none : Option (List ExpEntry)).getD []).isEmpty) = false := by
      cases ns with
      | nil => exact absurd rfl hns
      | cons a t => rfl
    unfold expandArgumentList
    rw [hgate]
    simp only [Bool.false_eq_true, if_false]
    rw [show resolveLegacy none (some (ns.map ExpEntry.name)) none lproduct
          = .ok ([], ns.map ExpEntry.name) from rfl]
    simp only [exBindOk]
    rw [if_pos (show (ns.map ExpEntry.name).length > 0 by
      rw [List.length_map]
      exact List.length_pos.mpr hns)]
    have hfil : kwargs.filter (fun kv => !(containsName [] kv.1)) = kwargs := by
      rw [show (fun (kv : String × PyObj) => !(containsName [] kv.1)) = fun _ => true from
        funext (fun kv => rfl)]
      exact List.filter_true kwargs
    rw [hfil]
    rw [parScan_names ns [] kwargs]
    simp only [exBindOk]
    rw [show replaceGroups [] (ns.map ExpEntry.name) = ns.map ExpEntry.name from rfl]
    have hall : ((ns.map ExpEntry.name).all isNameEntry) = true := by
      rw [List.all_eq_true]
      intro e he
      obtain ⟨n, _, rfl⟩ := List.mem_map.mp he
      rfl
    rw [hall]
    simp only [Bool.not_true, Bool.false_eq_true, if_false]
    rw [prepareList_names_ok ns kwargs hnd hseq]
    simp only [exBindOk]
    rw [prodLens_ok ns f hnd ns (fun n hn => hn) hseq2]
    simp only [exBindOk]
    set L : Nat := (ns.map (fun n => (pyElems (f n)).length)).prod with hL
    rw [show loop_recursion ns (skel ns f)
          = loopRec ns ((skel ns f).map (fun kv => (kv.1, PyObj.vlist []))) (skel ns f)
        from rfl]
    rw [show (skel ns f).map (fun kv => (kv.1, PyObj.vlist []))
          = skel ns (fun m => PyObj.vlist (([] : List PyObj))) from by
      unfold skel
      rw [List.map_map]
      rfl]
    rw [loopRec_skel ns hnd ns (fun n hn => hn) hnd f (fun _ => [])]
    rw [skel_congr ns _ (fun m => PyObj.vlist ((termvals ns f).map (fun h => h m)))
      (fun m _ => by rw [List.nil_append])]
    set col : String → List PyObj := fun m => (termvals ns f).map (fun h => h m) with hcol
    have hcollen : ∀ m, (col m).length = L := by
      intro m
      rw [hcol]
      simp only [List.length_map]
      rw [termvals_length ns f hnd]
    rw [all_dmem_skel ns f (fun m => PyObj.vlist (col m)) hnd]
    simp only [Bool.not_true, Bool.false_eq_true, if_false]
    rw [checkLens_ok ns (skel ns (fun m => PyObj.vlist (col m))) L (fun el hel =>
      ⟨col el, dlookup_skel_mem ns _ el hnd hel, hcollen el⟩)]
    simp only [exBindOk]
    rw [checkValLens_ok (skel ns (fun m => PyObj.vlist (col m))) L (fun kv hkv => by
      obtain ⟨n, hn, rfl⟩ := List.mem_map.mp hkv
      exact ⟨col n, rfl, hcollen n⟩)]
    simp only [exBindOk]
    rw [show disassemble [] (skel ns (fun m => PyObj.vlist (col m)))
          = .ok (skel ns (fun m => PyObj.vlist (col m))) from rfl]
    simp only [exBindOk, exBindPure]
    rw [if_neg (show ¬(([] : List ExpEntry).length > 0) by simp)]
    show Except.ok (assemble kwargs (skel ns (fun m => PyObj.vlist (col m))) L)
        = Except.ok (outerProductSpec kwargs ns)
    congr 1
    unfold assemble
    have hmapi : ∀ i, (skel ns (fun m => PyObj.vlist (col m))).map
        (fun kv => (kv.1, pyIndex kv.2 i)) = skel ns (fun n => (col n).getD i .vnone) := by
      intro i
      unfold skel
      rw [List.map_map]
      rfl
    simp only [hmapi]
    simp only [show ∀ i, dupdate kwargs (skel ns (fun n => (col n).getD i PyObj.vnone))
        = kwargs.map (fun kv =>
            (kv.1, if kv.1 ∈ ns then (col kv.1).getD i PyObj.vnone else kv.2))
      from fun i => dupdate_skel ns kwargs _ hkw hmem]
    unfold outerProductSpec
    set cs := choiceLists (ns.map (fun n => (n, seqOf kwargs n))) with hcs
    have hLcs : L = cs.length := by
      rw [hcs, choiceLists_length, List.map_map]
      rfl
    rw [hLcs]
    apply List.ext_getElem
    · simp
    · intro i h1 h2
      rw [List.getElem_map, List.getElem_map, List.getElem_range]
      have hi : i < cs.length := by simpa using h2
      apply List.map_congr_left
      intro kv hkv
      have hkvlook : dlookup kwargs kv.1 = some kv.2 :=
        dlookup_self_of_mem kwargs kv.1 kv.2 hkw hkv
      have hkeysi : dkeys cs[i] = ns := by
        have h0 := choiceLists_keys (ns.map (fun n => (n, seqOf kwargs n)))
          cs[i] (List.getElem_mem hi)
        rw [List.map_map] at h0
        rw [h0]
        rw [show (Prod.fst ∘ fun n => (n, seqOf kwargs n)) = fun (n : String) => n from rfl]
        exact List.map_id ns
      by_cases hin : kv.1 ∈ ns
      · rw [if_pos hin]
        have hcolc : col kv.1 = cs.map (fun c => (dlookup c kv.1).getD (f kv.1)) :=
          termvals_col ns f kv.1 hnd
        rw [hcolc]
        rw [List.getD_eq_getElem (cs.map (fun c => (dlookup c kv.1).getD (f kv.1))) _
          (by simpa using hi)]
        rw [List.getElem_map]
        have hfkv : f kv.1 = kv.2 := by
          rw [hf]
          simp only [hkvlook, Option.getD_some]
        rw [hfkv]
      · rw [if_neg hin]
        rw [dlookup_none_of_not_keys cs[i] kv.1 (by rw [hkeysi]; exact hin)]
        rfl

theorem flatten_replicate_singleton {α : Type} (L : Nat) (x : α) :
    (List.replicate L [x]).flatten = List.replicate L x := by
  induction L with
  | zero => rfl
  | succ k ihk =>
    rw [List.replicate_succ, List.flatten_cons, ihk, List.replicate_succ]
    rfl

theorem pyElems_bcastVal (v : PyObj) (L : Nat) (h : isSeq v = true) :
    pyElems (bcastVal v L) = broadcastSeq (pyElems v) L := by
  unfold bcastVal broadcastSeq
  by_cases h1 : (pyElems v).length = 1
  · rw [if_pos h1, if_pos h1]
    cases v with
    | vlist xs =>
      obtain ⟨x, hx⟩ := List.length_eq_one.mp h1
      show (List.replicate L xs).flatten = List.replicate L (xs.headD .vnone)
      rw [show xs = [x] from hx]
      exact flatten_replicate_singleton L x
    | vtup xs =>
      obtain ⟨x, hx⟩ := List.length_eq_one.mp h1
      show (List.replicate L xs).flatten = List.replicate L (xs.headD .vnone)
      rw [show xs = [x] from hx]
      exact flatten_replicate_singleton L x
    | vnone => simp [isSeq] at h
    | atom k => simp [isSeq] at h
    | vstr s => simp [isSeq] at h
    | fn k => simp [isSeq] at h
  · rw [if_neg h1, if_neg h1]

theorem broadcastLoop_skel (ns : List String) (hnd : ns.Nodup) :
    ∀ (ll : List String), (∀ n ∈ ll, n ∈ ns) → ll.Nodup →
    ∀ (f : String → PyObj) (L : Nat),
    (∀ n ∈ ll, isSeq (f n) = true) →
    (∀ n ∈ ll, (pyElems (f n)).length = 1 ∨ (pyElems (f n)).length = L) →
    broadcastLoop ll (skel ns f) L
      = .ok (skel ns (fun m => if m ∈ ll then bcastVal (f m) L else f m)) := by
  intro ll
  induction ll with
  | nil =>
    intro _ _ f L _ _
    rw [show broadcastLoop [] (skel ns f) L = .ok (skel ns f) from rfl]
    congr 1
  | cons a t ih =>
    intro hsub hnd2 f L hseq hlens
    have ha : a ∈ ns := hsub a (List.mem_cons_self a t)
    have hat : a ∉ t := (List.nodup_cons.mp hnd2).1
    have hnd3 : t.Nodup := (List.nodup_cons.mp hnd2).2
    rw [show broadcastLoop (a :: t) (skel ns f) L
        = (do
            let n ← pyLen ((dlookup (skel ns f) a).getD .vnone)
            if n = 1 then
              broadcastLoop t
                (dinsert (skel ns f) a
                  (pyRepeat ((dlookup (skel ns f) a).getD .vnone) L)) L
            else if n ≠ L then
              throw (PyErr.typeError
                "Lists have to be of same length to form inner product!")
            else broadcastLoop t (skel ns f) L)
        from rfl]
    rw [dlookup_skel_mem ns f a hnd ha]
    simp only [Option.getD_some]
    rw [pyLen_isSeq (f a) (hseq a (List.mem_cons_self a t))]
    simp only [exBindOk]
    by_cases h1 : (pyElems (f a)).length = 1
    · rw [if_pos h1]
      rw [dinsert_skel ns f a (pyRepeat (f a) L) hnd ha]
      rw [ih (fun n hn => hsub n (List.mem_cons_of_mem a hn)) hnd3
        (fupd f a (pyRepeat (f a) L)) L
        (fun n hn => by
          have hna : n ≠ a := fun he => hat (he ▸ hn)
          rw [show fupd f a (pyRepeat (f a) L) n = f n from if_neg hna]
          exact hseq n (List.mem_cons_of_mem a hn))
        (fun n hn => by
          have hna : n ≠ a := fun he => hat (he ▸ hn)
          rw [show fupd f a (pyRepeat (f a) L) n = f n from if_neg hna]
          exact hlens n (List.mem_cons_of_mem a hn))]
      congr 1
      apply skel_congr
      intro m hm
      by_cases hma : m = a
      · subst hma
        rw [if_neg hat, if_pos (List.mem_cons_self m t)]
        rw [show fupd f m (pyRepeat (f m) L) m = pyRepeat (f m) L from if_pos rfl]
        rw [show bcastVal (f m) L = pyRepeat (f m) L from by
          unfold bcastVal
          rw [if_pos h1]]
      · rw [show fupd f a (pyRepeat (f a) L) m = f m from if_neg hma]
        by_cases hmt : m ∈ t
        · rw [if_pos hmt, if_pos (List.mem_cons_of_mem a hmt)]
        · rw [if_neg hmt, if_neg (fun hc => by
            cases List.mem_cons.mp hc with
            | inl h => exact hma h
            | inr h => exact hmt h)]
    · rw [if_neg h1]
      have hL : (pyElems (f a)).length = L :=
        (hlens a (List.mem_cons_self a t)).resolve_left h1
      rw [if_neg (show ¬((pyElems (f a)).length ≠ L) from fun h => h hL)]
      rw [ih (fun n hn => hsub n (List.mem_cons_of_mem a hn)) hnd3 f L
        (fun n hn => hseq n (List.mem_cons_of_mem a hn))
        (fun n hn => hlens n (List.mem_cons_of_mem a hn))]
      congr 1
      apply skel_congr
      intro m hm
      by_cases hma : m = a
      · subst hma
        rw [if_neg hat, if_pos (List.mem_cons_self m t)]
        rw [show bcastVal (f m) L = f m from by
          unfold bcastVal
          rw [if_neg h1]]
      · by_cases hmt : m ∈ t
        · rw [if_pos hmt, if_pos (List.mem_cons_of_mem a hmt)]
        · rw [if_neg hmt, if_neg (fun hc => by
            cases List.mem_cons.mp hc with
            | inl h => exact hma h
            | inr h => exact hmt h)]

/-- Witness for the outer-product claim at a concrete two-name instance. -/
theorem expand_outer_cartesian_witness :
    expandArgumentList none (some (["a", "b"].map ExpEntry.name)) none "outer" kwOuterW
        = .ok (outerProductSpec kwOuterW ["a", "b"]) ∧
    (outerProductSpec kwOuterW ["a", "b"]).length
        = (["a", "b"].map (fun n => (seqOf kwOuterW n).length)).prod :=
  expand_outer_cartesian kwOuterW ["a", "b"] "outer" (by decide)
    (show (dkeys kwOuterW).Nodup by decide) (by decide)

/-! ## Claim C3 -/

/-- Counterexample for claim C3 as stated: the reference length of the inner
product is the length of the first-listed inner sequence, not a group-wide
common length.  With a singleton first sequence and a length-2 second one the
group common length reading predicts 2 zipped mappings with the singleton
broadcast, but the code raises TypeError because the second length differs
from the first length 1. -/
theorem expand_inner_first_length_cex :
    expandArgumentList (some (["a", "b"].map ExpEntry.name)) none none "outer" kwInnerBad
      = .error (.typeError "Lists have to be of same length to form inner product!") ∧
    expandArgumentList (some (["a", "b"].map ExpEntry.name)) none none "outer" kwInnerBad
      ≠ .ok (innerZipSpec kwInnerBad ["a", "b"] 2) :=
  ⟨rfl, by decide⟩

/-- Claim C3 (amended): with inner names only, each bound to a sequence whose
length is 1 or equals the length L of the FIRST inner sequence, the result is
exactly L mappings produced by element-wise zipping with singletons broadcast
to L; inner expansion never multiplies cardinality. -/
theorem expand_inner_zip (kwargs : Dict) (n0 : String) (ms : List String)
    (lproduct : String) (L : Nat)
    (hnd : (n0 :: ms).Nodup) (hkw : nodupKeys kwargs)
    (hseq : ∀ n ∈ n0 :: ms, isSeq ((dlookup kwargs n).getD .vnone) = true)
    (hL : (seqOf kwargs n0).length = L)
    (hlens : ∀ n ∈ n0 :: ms,
      (seqOf kwargs n).length = 1 ∨ (seqOf kwargs n).length = L) :
    expandArgumentList (some ((n0 :: ms).map ExpEntry.name)) none none lproduct kwargs
      = .ok (innerZipSpec kwargs (n0 :: ms) L) ∧
    (innerZipSpec kwargs (n0 :: ms) L).length = L := by
  have hmem : ∀ n ∈ n0 :: ms, dmem kwargs n = true := by
    intro n hn
    have hs := hseq n hn
    unfold dmem
    cases hl : dlookup kwargs n with
    | none => rw [hl] at hs; simp [isSeq] at hs
    | some v => simp
  have hlen2 : (innerZipSpec kwargs (n0 :: ms) L).length = L := by
    unfold innerZipSpec
    rw [List.length_map, List.length_range]
  refine ⟨?_, hlen2⟩
  set f : String → PyObj := fun n => (dlookup kwargs n).getD .vnone with hf
  have hgate : ((((some ((n0 :: ms).map ExpEntry.name)).getD []).isEmpty
      && ((none : Option (List ExpEntry)).getD []).isEmpty
      && ((none : Option (List ExpEntry)).getD []).isEmpty)) = false := rfl
  unfold expandArgumentList
  rw [hgate]
  simp only [Bool.false_eq_true, if_false]
  rw [show resolveLegacy (some ((n0 :: ms).map ExpEntry.name)) none none lproduct
        = .ok ((n0 :: ms).map ExpEntry.name, []) from rfl]
  simp only [exBindOk]
  rw [if_neg (show ¬(([] : List ExpEntry).length > 0) by simp)]
  simp only [exBindPure]
  rw [if_pos (show (((n0 :: ms).map ExpEntry.name)).length > 0 by simp)]
  simp only [prepareList_names_ok (n0 :: ms) kwargs hnd hseq, exBindOk]
  rw [dlookup_skel_mem (n0 :: ms) f n0 hnd (List.mem_cons_self n0 ms)]
  simp only [Option.getD_some]
  rw [pyLen_isSeq (f n0) (hseq n0 (List.mem_cons_self n0 ms))]
  simp only [exBindOk]
  rw [show (pyElems (f n0)).length = L from hL]
  rw [broadcastLoop_skel (n0 :: ms) hnd (n0 :: ms) (fun n hn => hn) hnd f L hseq hlens]
  simp only [exBindOk]
  set g : String → PyObj :=
    fun m => if m ∈ n0 :: ms then bcastVal (f m) L else f m with hg
  show Except.ok (assemble kwargs (skel (n0 :: ms) g) L)
      = Except.ok (innerZipSpec kwargs (n0 :: ms) L)
  congr 1
  unfold assemble innerZipSpec
  have hmapi2 : ∀ i, (skel (n0 :: ms) g).map (fun kv => (kv.1, pyIndex kv.2 i))
      = skel (n0 :: ms) (fun n => pyIndex (g n) i) := by
    intro i
    unfold skel
    rw [List.map_map]
    rfl
  simp only [hmapi2]
  simp only [show ∀ i, dupdate kwargs (skel (n0 :: ms) (fun n => pyIndex (g n) i))
      = kwargs.map (fun kv =>
          (kv.1, if kv.1 ∈ n0 :: ms then pyIndex (g kv.1) i else kv.2))
    from fun i => dupdate_skel (n0 :: ms) kwargs _ hkw hmem]
  apply List.map_congr_left
  intro i _
  apply List.map_congr_left
  intro kv hkv
  by_cases hin : kv.1 ∈ n0 :: ms
  · rw [if_pos hin, if_pos hin]
    rw [show g kv.1 = bcastVal (f kv.1) L from by rw [hg]; exact if_pos hin]
    show (kv.1, (pyElems (bcastVal (f kv.1) L)).getD i .vnone) = _
    rw [pyElems_bcastVal (f kv.1) L (hseq kv.1 hin)]
    rfl
  · rw [if_neg hin, if_neg hin]

/-- Witness for the amended inner-zip claim: first sequence of length 3, a
singleton broadcast to 3, a scalar repeated verbatim. -/
theorem expand_inner_zip_witness :
    expandArgumentList (some (["x", "y"].map ExpEntry.name)) none none "outer" kwInnerW
      = .ok (innerZipSpec kwInnerW ["x", "y"] 3) ∧
    (innerZipSpec kwInnerW ["x", "y"] 3).length = 3 :=
  expand_inner_zip kwInnerW "x" ["y"] "outer" 3 (by decide)
    (show (dkeys kwInnerW).Nodup by decide) (by decide) (by decide) (by decide)

/-! ## Claim C4 -/

theorem dlookup_filter_keep (p : String × PyObj → Bool) (k : String) :
    ∀ (d : Dict), (∀ v, p (k, v) = true) →
    dlookup (d.filter p) k = dlookup d k := by
  intro d hp
  induction d with
  | nil => rfl
  | cons kv t ih =>
    obtain ⟨k0, v0⟩ := kv
    rw [List.filter_cons]
    by_cases hk : k0 = k
    · rw [if_pos (show p (k0, v0) = true from by rw [hk]; exact hp v0)]
      show dlookup ((k0, v0) :: t.filter p) k = dlookup ((k0, v0) :: t) k
      unfold dlookup
      rw [if_pos hk, if_pos hk]
    · by_cases hpv : p (k0, v0) = true
      · rw [if_pos hpv]
        show dlookup ((k0, v0) :: t.filter p) k = dlookup ((k0, v0) :: t) k
        unfold dlookup
        rw [if_neg hk, if_neg hk]
        exact ih
      · rw [if_neg hpv, ih]
        rw [show dlookup ((k0, v0) :: t) k
            = if k0 = k then some v0 else dlookup t k from rfl]
        rw [if_neg hk]

theorem nodupKeys_filter (d : Dict) (p : String × PyObj → Bool)
    (h : nodupKeys d) : nodupKeys (d.filter p) := by
  unfold nodupKeys dkeys at h ⊢
  exact List.Nodup.sublist ((List.filter_sublist d).map Prod.fst) h

theorem containsName_map_name (l : List String) (s : String) :
    containsName (l.map ExpEntry.name) s = true ↔ s ∈ l := by
  unfold containsName
  rw [List.any_eq_true]
  constructor
  · rintro ⟨e, he, hes⟩
    obtain ⟨n, hn, rfl⟩ := List.mem_map.mp he
    have hns : ExpEntry.name n = ExpEntry.name s := of_decide_eq_true hes
    cases hns
    exact hn
  · intro hs
    refine ⟨ExpEntry.name s, List.mem_map_of_mem ExpEntry.name hs, ?_⟩
    exact decide_eq_true rfl

theorem dlookup_map_keyval (d : Dict) (F : String → PyObj → PyObj) (k : String) :
    dlookup (d.map (fun kv => (kv.1, F kv.1 kv.2))) k
      = (dlookup d k).map (F k) := by
  induction d with
  | nil => rfl
  | cons kv t ih =>
    obtain ⟨k0, v0⟩ := kv
    rw [List.map_cons]
    show dlookup ((k0, F k0 v0) :: t.map (fun kv => (kv.1, F kv.1 kv.2))) k
        = (dlookup ((k0, v0) :: t) k).map (F k)
    unfold dlookup
    by_cases hk : k0 = k
    · rw [if_pos hk, if_pos hk, hk]
      rfl
    · rw [if_neg hk, if_neg hk]
      exact ih

/-- Counterexample for claim C4 as stated: combining an inner name of common
length 2 with an outer name of arity 2 gives 2 mappings, not the claimed
inner-times-outer 2 * 2 = 4.  The outer columns are replaced by the inner
zip, so the total equals the outer product count alone. -/
theorem expand_mixed_count_cex :
    expandArgumentList (some [ExpEntry.name "b"]) (some [ExpEntry.name "a"]) none
        "outer" kwMixed
      = .ok [[("a", PyObj.atom 0), ("b", PyObj.atom 2)],
             [("a", PyObj.atom 1), ("b", PyObj.atom 3)]] ∧
    ¬((2 : Nat) = (seqOf kwMixed "b").length * (seqOf kwMixed "a").length) :=
  ⟨rfl, by decide⟩

/-- Claim C4 (amended): with both inner and outer names given (outer arity
product P, every inner sequence of length 1 or P), the total number of
returned argument mappings equals P alone: the outer columns are re-expanded
through the inner zip, so the inner stage never multiplies the cardinality. -/
theorem expand_mixed_total (kwargs : Dict) (n0 : String) (nr : List String)
    (m0 : String) (mr : List String) (lproduct : String)
    (hnd : ((n0 :: nr) ++ (m0 :: mr)).Nodup) (hkw : nodupKeys kwargs)
    (hseq : ∀ n ∈ (n0 :: nr) ++ (m0 :: mr),
      isSeq ((dlookup kwargs n).getD .vnone) = true)
    (hlens : ∀ n ∈ m0 :: mr, (seqOf kwargs n).length = 1 ∨
      (seqOf kwargs n).length
        = ((n0 :: nr).map (fun n => (seqOf kwargs n).length)).prod) :
    ∃ ds,
      expandArgumentList (some ((m0 :: mr).map ExpEntry.name))
          (some ((n0 :: nr).map ExpEntry.name)) none lproduct kwargs = .ok ds ∧
      ds.length = ((n0 :: nr).map (fun n => (seqOf kwargs n).length)).prod := by
  set P : Nat := ((n0 :: nr).map (fun n => (seqOf kwargs n).length)).prod with hP
  have hndns : (n0 :: nr).Nodup := hnd.of_append_left
  have hnd2 : (n0 :: (nr ++ (m0 :: mr))).Nodup := by
    rw [← List.cons_append]
    exact hnd
  have hdisj : ∀ n ∈ n0 :: nr, n ∉ m0 :: mr := by
    intro n hn hc
    exact (List.disjoint_left.mp (List.nodup_append.mp hnd).2.2) hn hc
  have hmemk : ∀ n ∈ (n0 :: nr) ++ (m0 :: mr), dmem kwargs n = true := by
    intro n hn
    have hs := hseq n hn
    unfold dmem
    cases hl : dlookup kwargs n with
    | none => rw [hl] at hs; simp [isSeq] at hs
    | some v => simp
  set kwt : Dict :=
    kwargs.filter (fun kv => !(containsName ((m0 :: mr).map ExpEntry.name) kv.1))
    with hkwt
  have hlookt : ∀ n, n ∉ m0 :: mr → dlookup kwt n = dlookup kwargs n := by
    intro n hn
    rw [hkwt]
    apply dlookup_filter_keep
    intro v
    have hc : containsName ((m0 :: mr).map ExpEntry.name) n = false := by
      cases hcn : containsName ((m0 :: mr).map ExpEntry.name) n with
      | false => rfl
      | true => exact absurd ((containsName_map_name (m0 :: mr) n).mp hcn) hn
    rw [hc]
    rfl
  have hseqt : ∀ n ∈ n0 :: nr, isSeq ((dlookup kwt n).getD .vnone) = true := by
    intro n hn
    rw [hlookt n (hdisj n hn)]
    exact hseq n (List.mem_append_left _ hn)
  set f2 : String → PyObj := fun n => (dlookup kwt n).getD .vnone with hf2
  have hf2seq : ∀ n ∈ n0 :: nr, pyElems (f2 n) = seqOf kwargs n := by
    intro n hn
    show pyElems ((dlookup kwt n).getD .vnone) = _
    rw [hlookt n (hdisj n hn)]
    rfl
  have hP2 : ((n0 :: nr).map (fun n => (pyElems (f2 n)).length)).prod = P := by
    rw [hP]
    congr 1
    apply List.map_congr_left
    intro n hn
    rw [hf2seq n hn]
  set colO : String → List PyObj :=
    fun m => (termvals (n0 :: nr) f2).map (fun h => h m) with hcolO
  have hcollenO : ∀ m, (colO m).length = P := by
    intro m
    rw [hcolO]
    simp only [List.length_map]
    rw [termvals_length (n0 :: nr) f2 hndns]
    exact hP2
  set kw3 : Dict := kwargs.map (fun kv =>
      (kv.1, if kv.1 ∈ n0 :: nr then PyObj.vlist (colO kv.1) else kv.2)) with hkw3
  have hkwtmp3 : dupdate kwargs (skel (n0 :: nr) (fun m => PyObj.vlist (colO m))) = kw3 := by
    rw [hkw3]
    exact dupdate_skel (n0 :: nr) kwargs _ hkw
      (fun n hn => hmemk n (List.mem_append_left _ hn))
  set f3 : String → PyObj := fun n => (dlookup kw3 n).getD .vnone with hf3d
  have hlook3 : ∀ n, dlookup kw3 n
      = (dlookup kwargs n).map
          (fun v => if n ∈ n0 :: nr then PyObj.vlist (colO n) else v) := by
    intro n
    rw [hkw3]
    exact dlookup_map_keyval kwargs
      (fun k v => if k ∈ n0 :: nr then PyObj.vlist (colO k) else v) n
  have hf3ns : ∀ n ∈ n0 :: nr, f3 n = PyObj.vlist (colO n) := by
    intro n hn
    show (dlookup kw3 n).getD .vnone = _
    rw [hlook3 n]
    cases hl : dlookup kwargs n with
    | none =>
      have hm := hmemk n (List.mem_append_left _ hn)
      rw [dmem, hl] at hm
      simp at hm
    | some v => exact if_pos hn
  have hf3eq : ∀ n ∈ m0 :: mr, f3 n = (dlookup kwargs n).getD .vnone := by
    intro n hn
    have hnns : n ∉ n0 :: nr := fun hc => hdisj n hc hn
    show (dlookup kw3 n).getD .vnone = _
    rw [hlook3 n]
    cases hl : dlookup kwargs n with
    | none => rfl
    | some v => exact if_neg hnns
  have hseq3 : ∀ n ∈ n0 :: (nr ++ (m0 :: mr)), isSeq (f3 n) = true := by
    intro n hn
    cases List.mem_append.mp (show n ∈ (n0 :: nr) ++ (m0 :: mr) from hn) with
    | inl h =>
      rw [hf3ns n h]
      rfl
    | inr h =>
      rw [hf3eq n h]
      exact hseq n (List.mem_append_right _ h)
  have hlens3 : ∀ n ∈ n0 :: (nr ++ (m0 :: mr)),
      (pyElems (f3 n)).length = 1 ∨ (pyElems (f3 n)).length = P := by
    intro n hn
    cases List.mem_append.mp (show n ∈ (n0 :: nr) ++ (m0 :: mr) from hn) with
    | inl h =>
      right
      rw [hf3ns n h]
      exact hcollenO n
    | inr h =>
      rw [hf3eq n h]
      exact hlens n h
  have hlstlen : (pyElems (f3 n0)).length = P := by
    rw [hf3ns n0 (List.mem_cons_self n0 nr)]
    exact hcollenO n0
  have hmain : expandArgumentList (some ((m0 :: mr).map ExpEntry.name))
      (some ((n0 :: nr).map ExpEntry.name)) none lproduct kwargs
      = .ok (assemble kwargs
          (skel (n0 :: (nr ++ (m0 :: mr)))
            (fun m => if m ∈ n0 :: (nr ++ (m0 :: mr)) then bcastVal (f3 m) P else f3 m))
          P) := by
    unfold expandArgumentList
    rw [show ((((some ((m0 :: mr).map ExpEntry.name)).getD []).isEmpty
        && ((some ((n0 :: nr).map ExpEntry.name)).getD []).isEmpty
        && ((none : Option (List ExpEntry)).getD []).isEmpty)) = false from rfl]
    simp only [Bool.false_eq_true, if_false]
    rw [show resolveLegacy (some ((m0 :: mr).map ExpEntry.name))
          (some ((n0 :: nr).map ExpEntry.name)) none lproduct
        = .ok ((m0 :: mr).map ExpEntry.name, (n0 :: nr).map ExpEntry.name) from rfl]
    simp only [exBindOk]
    rw [if_pos (show (((n0 :: nr).map ExpEntry.name)).length > 0 by simp)]
    rw [← hkwt]
    rw [parScan_names (n0 :: nr) [] kwt]
    simp only [exBindOk]
    rw [show replaceGroups [] ((n0 :: nr).map ExpEntry.name)
          = (n0 :: nr).map ExpEntry.name from rfl]
    have hall : (((n0 :: nr).map ExpEntry.name).all isNameEntry) = true := by
      rw [List.all_eq_true]
      intro e he
      obtain ⟨n, _, rfl⟩ := List.mem_map.mp he
      rfl
    rw [hall]
    simp only [Bool.not_true, Bool.false_eq_true, if_false]
    rw [prepareList_names_ok (n0 :: nr) kwt hndns hseqt]
    simp only [exBindOk]
    rw [prodLens_ok (n0 :: nr) f2 hndns (n0 :: nr) (fun n hn => hn) hseqt]
    simp only [exBindOk]
    rw [show (((n0 :: nr).map (fun n => (pyElems (f2 n)).length)).prod) = P from hP2]
    rw [show loop_recursion (n0 :: nr) (skel (n0 :: nr) f2)
          = loopRec (n0 :: nr)
              ((skel (n0 :: nr) f2).map (fun kv => (kv.1, PyObj.vlist [])))
              (skel (n0 :: nr) f2)
        from rfl]
    rw [show (skel (n0 :: nr) f2).map (fun kv => (kv.1, PyObj.vlist []))
          = skel (n0 :: nr) (fun m => PyObj.vlist (([] : List PyObj))) from by
      unfold skel
      rw [List.map_map]
      rfl]
    rw [loopRec_skel (n0 :: nr) hndns (n0 :: nr) (fun n hn => hn) hndns f2 (fun _ => [])]
    rw [skel_congr (n0 :: nr) _
      (fun m => PyObj.vlist ((termvals (n0 :: nr) f2).map (fun h => h m)))
      (fun m _ => by rw [List.nil_append])]
    rw [all_dmem_skel (n0 :: nr) f2 (fun m => PyObj.vlist (colO m)) hndns]
    simp only [Bool.not_true, Bool.false_eq_true, if_false]
    rw [checkLens_ok (n0 :: nr) (skel (n0 :: nr) (fun m => PyObj.vlist (colO m))) P
      (fun el hel =>
        ⟨colO el, dlookup_skel_mem (n0 :: nr) _ el hndns hel, hcollenO el⟩)]
    simp only [exBindOk]
    rw [checkValLens_ok (skel (n0 :: nr) (fun m => PyObj.vlist (colO m))) P
      (fun kv hkv => by
        obtain ⟨n, hn, rfl⟩ := List.mem_map.mp hkv
        exact ⟨colO n, rfl, hcollenO n⟩)]
    simp only [exBindOk]
    rw [show disassemble [] (skel (n0 :: nr) (fun m => PyObj.vlist (colO m)))
          = .ok (skel (n0 :: nr) (fun m => PyObj.vlist (colO m))) from rfl]
    simp only [exBindOk, exBindPure]
    rw [if_pos (show (((m0 :: mr).map ExpEntry.name)).length > 0 by simp)]
    simp only [List.length_cons, gt_iff_lt, Nat.zero_lt_succ, if_true, hkwtmp3,
      ← List.map_append, List.cons_append]
    rw [prepareList_names_ok (n0 :: (nr ++ (m0 :: mr))) kw3 hnd2 hseq3]
    simp only [exBindOk]
    rw [dlookup_skel_mem (n0 :: (nr ++ (m0 :: mr))) f3 n0 hnd2
      (List.mem_cons_self n0 (nr ++ (m0 :: mr)))]
    simp only [Option.getD_some]
    rw [pyLen_isSeq (f3 n0) (hseq3 n0 (List.mem_cons_self n0 (nr ++ (m0 :: mr))))]
    simp only [exBindOk]
    rw [show ((pyElems (f3 n0)).length) = P from hlstlen]
    rw [broadcastLoop_skel (n0 :: (nr ++ (m0 :: mr))) hnd2 (n0 :: (nr ++ (m0 :: mr)))
      (fun n hn => hn) hnd2 f3 P hseq3 hlens3]
    rfl
  refine ⟨_, hmain, ?_⟩
  unfold assemble
  rw [List.length_map, List.length_range]

/-- Witness for the amended combined-expansion claim: one outer name of arity
2 and one inner name of length 2 yield exactly 2 mappings. -/
theorem expand_mixed_total_witness :
    ∃ ds,
      expandArgumentList (some (["b"].map ExpEntry.name))
          (some (["a"].map ExpEntry.name)) none "outer" kwMixed = .ok ds ∧
      ds.length = (["a"].map (fun n => (seqOf kwMixed n).length)).prod :=
  expand_mixed_total kwMixed "a" [] "b" [] "outer" (by decide)
    (show (dkeys kwMixed).Nodup by decide) (by decide) (by decide)

/-! ## Claim C2 -/

theorem getD_append_lt {A : Type} (l l2 : List A) (j : Nat) (d : A) :
    j < l.length → (l ++ l2).getD j d = l.getD j d := by
  induction l generalizing j with
  | nil => intro h; cases h
  | cons a t ih =>
    intro h
    cases j with
    | zero => rfl
    | succ j2 =>
      rw [List.cons_append, List.getD_cons_succ, List.getD_cons_succ]
      exact ih j2 (Nat.lt_of_succ_lt_succ h)

theorem getD_append_block {A : Type} (l l2 : List A) (k : Nat) (d : A) :
    (l ++ l2).getD (l.length + k) d = l2.getD k d := by
  induction l with
  | nil => rw [List.nil_append, List.length_nil, Nat.zero_add]
  | cons a t ih =>
    rw [List.cons_append]
    rw [show (a :: t).length + k = (t.length + k) + 1 from by
      rw [List.length_cons]; omega]
    rw [List.getD_cons_succ]
    exact ih

theorem getD_replicate_self {A : Type} (n j : Nat) (x d : A) (h : j < n) :
    (List.replicate n x).getD j d = x := by
  induction n generalizing j with
  | zero => cases h
  | succ n2 ih =>
    rw [List.replicate_succ]
    cases j with
    | zero => rfl
    | succ j2 =>
      rw [List.getD_cons_succ]
      exact ih j2 (Nat.lt_of_succ_lt_succ h)

theorem getD_flatMap_block {A : Type} (g : A → List PyObj) (M : Nat) :
    ∀ (zs : List A), (∀ z ∈ zs, (g z).length = M) →
    ∀ (i j : Nat), i < zs.length → j < M → ∀ (d : PyObj) (junk : A),
    (zs.flatMap g).getD (i * M + j) d = (g (zs.getD i junk)).getD j d := by
  intro zs
  induction zs with
  | nil => intro _ i j hi; cases hi
  | cons z t ih =>
    intro hg i j hi hj d junk
    rw [List.flatMap_cons]
    cases i with
    | zero =>
      rw [Nat.zero_mul, Nat.zero_add]
      rw [getD_append_lt (g z) (t.flatMap g) j d (by
        rw [hg z (List.mem_cons_self z t)]; exact hj)]
      rfl
    | succ i2 =>
      rw [show (i2 + 1) * M + j = (g z).length + (i2 * M + j) from by
        rw [hg z (List.mem_cons_self z t)]; ring]
      rw [getD_append_block]
      rw [List.getD_cons_succ]
      exact ih (fun z2 hz2 => hg z2 (List.mem_cons_of_mem z hz2)) i2 j
        (Nat.lt_of_succ_lt_succ hi) hj d junk

theorem flatMap_single {A B : Type} (l : List A) (g : A → B) :
    l.flatMap (fun x => [g x]) = l.map g := by
  induction l with
  | nil => rfl
  | cons a t ih =>
    rw [List.flatMap_cons, List.map_cons, ih]
    rfl

theorem map_const_replicate {A B : Type} (l : List A) (b : B) :
    l.map (fun _ => b) = List.replicate l.length b := by
  induction l with
  | nil => rfl
  | cons a t ih =>
    rw [List.map_cons, ih, List.length_cons, List.replicate_succ]

theorem range_mul_flatMap {A : Type} (M : Nat) (F : Nat → A) :
    ∀ (L : Nat), (List.range (L * M)).map F
      = (List.range L).flatMap (fun i => (List.range M).map (fun j => F (i * M + j))) := by
  intro L
  induction L with
  | zero => rw [Nat.zero_mul]; rfl
  | succ K ih =>
    rw [List.range_succ, List.flatMap_append]
    rw [show (K + 1) * M = K * M + M from by ring]
    rw [List.range_add, List.map_append, ih]
    congr 1
    rw [List.flatMap_cons, List.flatMap_nil, List.append_nil]
    rw [List.map_map]
    rfl

theorem pyZipGo_pair : ∀ (xs ys : List PyObj), ys.length = xs.length →
    pyZipGo xs [ys] = List.zipWith (fun x y => [x, y]) xs ys := by
  intro xs
  induction xs with
  | nil => intro ys _; rfl
  | cons x xs2 ih =>
    intro ys hlen
    cases ys with
    | nil => cases hlen
    | cons y ys2 =>
      show (x :: [(y :: ys2).headD PyObj.vnone]) :: pyZipGo xs2 [ys2]
          = [x, y] :: List.zipWith (fun x y => [x, y]) xs2 ys2
      rw [ih ys2 (by
        rw [List.length_cons, List.length_cons] at hlen
        omega)]
      rfl

theorem pyZip_pair (xs ys : List PyObj) (h : ys.length = xs.length) :
    pyZip [xs, ys] = List.zipWith (fun x y => [x, y]) xs ys :=
  pyZipGo_pair xs ys h

theorem pyZip_transpose2 (rows : List (List PyObj)) (hne : rows ≠ [])
    (hw : ∀ r ∈ rows, ∃ x y, r = [x, y]) :
    pyZip rows = [rows.map (fun r => r.headD .vnone),
                  rows.map (fun r => r.tail.headD .vnone)] := by
  cases rows with
  | nil => exact absurd rfl hne
  | cons r0 rest =>
    obtain ⟨x, y, rfl⟩ := hw r0 (List.mem_cons_self r0 rest)
    show pyZipGo [x, y] rest = _
    have h1 : rest.any List.isEmpty = false := by
      rw [List.any_eq_false]
      intro r hr
      obtain ⟨a, b, rfl⟩ := hw r (List.mem_cons_of_mem _ hr)
      simp
    have h2 : (rest.map List.tail).any List.isEmpty = false := by
      rw [List.any_eq_false]
      intro r hr
      obtain ⟨r2, hr2, rfl⟩ := List.mem_map.mp hr
      obtain ⟨a, b, rfl⟩ := hw r2 (List.mem_cons_of_mem _ hr2)
      simp
    rw [show pyZipGo [x, y] rest
        = (if rest.any List.isEmpty then []
           else (x :: rest.map (fun l => l.headD PyObj.vnone))
             :: pyZipGo [y] (rest.map List.tail)) from rfl]
    rw [h1]
    simp only [Bool.false_eq_true, if_false]
    rw [show pyZipGo [y] (rest.map List.tail)
        = (if (rest.map List.tail).any List.isEmpty then []
           else (y :: (rest.map List.tail).map (fun l => l.headD PyObj.vnone))
             :: pyZipGo [] ((rest.map List.tail).map List.tail)) from rfl]
    rw [h2]
    simp only [Bool.false_eq_true, if_false]
    rw [show pyZipGo [] ((rest.map List.tail).map List.tail) = [] from rfl]
    rw [List.map_cons, List.map_cons, List.map_map]
    rfl

theorem popAll_pair (d : Dict) (k1 k2 : String) (v1 v2 : PyObj)
    (h1 : dlookup d k1 = some v1) (h2 : dlookup (ddel d k1) k2 = some v2) :
    popAll [k1, k2] d = .ok ([v1, v2], ddel (ddel d k1) k2) := by
  have hp2 : popAll [k2] (ddel d k1) = .ok ([v2], ddel (ddel d k1) k2) := by
    show (match dlookup (ddel d k1) k2 with
      | some v => do
          let (vs, kwtmp2) ← popAll [] (ddel (ddel d k1) k2)
          pure (v :: vs, kwtmp2)
      | none => throw (PyErr.keyError k2)) = _
    rw [h2]
    rfl
  show (match dlookup d k1 with
    | some v => do
        let (vs, kwtmp2) ← popAll [k2] (ddel d k1)
        pure (v :: vs, kwtmp2)
    | none => throw (PyErr.keyError k1)) = _
  rw [h1]
  simp only [hp2, exBindOk]
  rfl

theorem allSameLen_pair (v1 v2 : PyObj) (L : Nat)
    (h1 : pyLen v1 = .ok L) (h2 : pyLen v2 = .ok L) :
    allSameLen [v1, v2] = .ok true := by
  have hl2 : lensOf [v2] = .ok [L] := by
    show (do
        let n ← pyLen v2
        let ns ← lensOf []
        pure (n :: ns)) = _
    rw [h2]
    rfl
  have hl : lensOf [v1, v2] = .ok [L, L] := by
    show (do
        let n ← pyLen v1
        let ns ← lensOf [v2]
        pure (n :: ns)) = _
    rw [h1]
    simp only [hl2, exBindOk]
    rfl
  show (do
      let ns ← lensOf [v1, v2]
      let n0 ← pyLen v1
      pure (ns.all (fun n => n = n0))) = _
  rw [hl]
  simp only [exBindOk]
  rw [h1]
  simp only [exBindOk]
  show Except.ok ([L, L].all (fun n => n = L)) = Except.ok true
  congr 1
  simp

/-- The fake argument name parScan builds for a parallel group. -/
theorem parScan_group (k1 k2 b : String) (kwargs : Dict) (v1 v2 : PyObj) (L : Nat)
    (h1 : dlookup kwargs k1 = some v1) (h2 : dlookup (ddel kwargs k1) k2 = some v2)
    (hl1 : pyLen v1 = .ok L) (hl2 : pyLen v2 = .ok L) :
    parScan [ExpEntry.group [k1, k2], ExpEntry.name b] [] kwargs
      = .ok ([("TMP_" ++ String.intercalate "_" [k1, k2] ++ "_"
                ++ toString ([k1, k2] : List String).length, [k1, k2])],
             dinsert (ddel (ddel kwargs k1) k2)
               ("TMP_" ++ String.intercalate "_" [k1, k2] ++ "_"
                ++ toString ([k1, k2] : List String).length)
               (.vlist ((pyZip [pyElems v1, pyElems v2]).map PyObj.vtup))) := by
  show (do
      let (par_args, kwtmp2) ← popAll [k1, k2] kwargs
      let ok ← allSameLen par_args
      if !ok then
        throw (PyErr.argumentError
          "Lists for parallel expansion arguments have to be of same length!")
      else
        parScan [ExpEntry.name b]
          ([] ++ [("TMP_" ++ String.intercalate "_" [k1, k2] ++ "_"
              ++ toString ([k1, k2] : List String).length, [k1, k2])])
          (dinsert kwtmp2
            ("TMP_" ++ String.intercalate "_" [k1, k2] ++ "_"
              ++ toString ([k1, k2] : List String).length)
            (.vlist ((pyZip (par_args.map pyElems)).map PyObj.vtup)))) = _
  rw [popAll_pair kwargs k1 k2 v1 v2 h1 h2]
  simp only [exBindOk]
  rw [allSameLen_pair v1 v2 L hl1 hl2]
  simp only [exBindOk, Bool.not_true, Bool.false_eq_true, if_false]
  exact parScan_names [b] _ _

theorem replaceGroups_pair (fk k1 k2 b : String) :
    replaceGroups [(fk, [k1, k2])] [ExpEntry.group [k1, k2], ExpEntry.name b]
      = [ExpEntry.name fk, ExpEntry.name b] := by
  show replaceGroups []
      (if (ExpEntry.group [k1, k2]) ∈ [ExpEntry.group [k1, k2], ExpEntry.name b] then
        replaceFirst [ExpEntry.group [k1, k2], ExpEntry.name b]
          (.group [k1, k2]) (.name fk)
      else [ExpEntry.group [k1, k2], ExpEntry.name b]) = _
  rw [if_pos (List.mem_cons_self _ _)]
  show replaceGroups []
      (if (ExpEntry.group [k1, k2]) = (ExpEntry.group [k1, k2]) then
        ExpEntry.name fk :: [ExpEntry.name b]
      else ExpEntry.group [k1, k2]
        :: replaceFirst [ExpEntry.name b] (.group [k1, k2]) (.name fk)) = _
  rw [if_pos rfl]
  rfl

theorem termvals_pair (n1 n2 : String) (f : String → PyObj) (h : n2 ≠ n1) :
    termvals [n1, n2] f
      = (pyElems (f n1)).flatMap (fun v =>
          (pyElems (f n2)).map (fun w => fupd (fupd f n1 v) n2 w)) := by
  show (pyElems (f n1)).flatMap (fun v => termvals [n2] (fupd f n1 v)) = _
  apply flatMap_congr_left
  intro v _
  show (pyElems ((fupd f n1 v) n2)).flatMap
      (fun w => termvals [] (fupd (fupd f n1 v) n2 w)) = _
  rw [show (fupd f n1 v) n2 = f n2 from if_neg h]
  exact flatMap_single _ _

theorem disassemble_two (fake k1 k2 b : String) (vB : PyObj) (colF : List PyObj)
    (hne : colF ≠ []) (hw : ∀ r ∈ colF, ∃ x y, r = PyObj.vtup [x, y])
    (hbk1 : b ≠ k1) (hbk2 : b ≠ k2) (hk12 : k1 ≠ k2) :
    disassemble [(fake, [k1, k2])] [(fake, .vlist colF), (b, vB)]
      = .ok [(b, vB),
             (k1, .vtup (colF.map (fun v => (pyElems v).headD .vnone))),
             (k2, .vtup (colF.map (fun v => (pyElems v).tail.headD .vnone)))] := by
  have hlook : dlookup [(fake, PyObj.vlist colF), (b, vB)] fake
      = some (.vlist colF) := by
    show (if fake = fake then some (PyObj.vlist colF)
        else dlookup [(b, vB)] fake) = _
    rw [if_pos rfl]
  show (match dlookup [(fake, PyObj.vlist colF), (b, vB)] fake with
    | none => throw PyErr.assertionError
    | some col => do
        let par_args := (pyZip ((pyElems col).map pyElems)).map PyObj.vtup
        if par_args.length ≠ ([k1, k2] : List String).length then
          throw PyErr.assertionError
        else
          disassemble [] (assignCols [k1, k2] par_args
            (ddel [(fake, PyObj.vlist colF), (b, vB)] fake))) = _
  rw [hlook]
  have hrows : ∀ r ∈ colF.map pyElems, ∃ x y, r = [x, y] := by
    intro r hr
    obtain ⟨v, hv, rfl⟩ := List.mem_map.mp hr
    obtain ⟨x, y, rfl⟩ := hw v hv
    exact ⟨x, y, rfl⟩
  have hrne : colF.map pyElems ≠ [] := by
    intro hc
    exact hne (List.map_eq_nil_iff.mp hc)
  show (if ((pyZip (colF.map pyElems)).map PyObj.vtup).length
        ≠ ([k1, k2] : List String).length then
      throw PyErr.assertionError
    else
      disassemble [] (assignCols [k1, k2]
        ((pyZip (colF.map pyElems)).map PyObj.vtup)
        (ddel [(fake, PyObj.vlist colF), (b, vB)] fake))) = _
  rw [pyZip_transpose2 (colF.map pyElems) hrne hrows]
  rw [List.map_map, List.map_map]
  rw [if_neg (show ¬((List.map PyObj.vtup
        [List.map ((fun (r : List PyObj) => r.headD PyObj.vnone) ∘ pyElems) colF,
         List.map ((fun (r : List PyObj) => r.tail.headD PyObj.vnone) ∘ pyElems)
           colF]).length
      ≠ ([k1, k2] : List String).length) from fun h => h rfl)]
  rw [show ddel [(fake, PyObj.vlist colF), (b, vB)] fake = [(b, vB)] from by
    show (if fake = fake then [(b, vB)]
        else (fake, PyObj.vlist colF) :: ddel [(b, vB)] fake) = _
    rw [if_pos rfl]]
  show Except.ok (dinsert (dinsert [(b, vB)] k1
      (.vtup (colF.map (fun v => (pyElems v).headD PyObj.vnone)))) k2
      (.vtup (colF.map (fun v => (pyElems v).tail.headD PyObj.vnone)))) = _
  rw [show dinsert [(b, vB)] k1
        (PyObj.vtup (colF.map (fun v => (pyElems v).headD PyObj.vnone)))
      = [(b, vB), (k1, .vtup (colF.map (fun v => (pyElems v).headD PyObj.vnone)))]
      from by
    show (if b = k1 then _ else (b, vB) :: dinsert [] k1 _) = _
    rw [if_neg hbk1]
    rfl]
  rw [show dinsert [(b, vB),
        (k1, PyObj.vtup (colF.map (fun v => (pyElems v).headD PyObj.vnone)))] k2
        (PyObj.vtup (colF.map (fun v => (pyElems v).tail.headD PyObj.vnone)))
      = [(b, vB),
         (k1, .vtup (colF.map (fun v => (pyElems v).headD PyObj.vnone))),
         (k2, .vtup (colF.map (fun v => (pyElems v).tail.headD PyObj.vnone)))]
      from by
    show (if b = k2 then _ else (b, vB) :: dinsert
        [(k1, PyObj.vtup (colF.map (fun v => (pyElems v).headD PyObj.vnone)))] k2 _) = _
    rw [if_neg hbk2]
    show (b, vB) :: (if k1 = k2 then _
        else (k1, PyObj.vtup (colF.map (fun v => (pyElems v).headD PyObj.vnone)))
          :: dinsert [] k2 _) = _
    rw [if_neg hk12]
    rfl]

/-- Counterexample for claim C2 as stated: a parallel group whose sequences
all have the same length 0 combined with an independent outer name of length
1 should, by the claim, produce 0 * 1 = 0 mappings, but the code raises
AssertionError while disassembling the empty fake column. -/
theorem expand_parallel_empty_cex :
    expandArgumentList none
        (some [ExpEntry.group ["p", "q"], ExpEntry.name "r"]) none "outer" kwParEmpty
      = .error .assertionError ∧
    expandArgumentList none
        (some [ExpEntry.group ["p", "q"], ExpEntry.name "r"]) none "outer" kwParEmpty
      ≠ .ok (parallelGroupSpec kwParEmpty ["p", "q"] "r") := by
  exact ⟨by decide, by decide⟩

theorem allSameLen_pair_ne (v1 v2 : PyObj) (L1 L2 : Nat)
    (h1 : pyLen v1 = .ok L1) (h2 : pyLen v2 = .ok L2) (hne : L2 ≠ L1) :
    allSameLen [v1, v2] = .ok false := by
  have hl2 : lensOf [v2] = .ok [L2] := by
    show (do
        let n ← pyLen v2
        let ns ← lensOf []
        pure (n :: ns)) = _
    rw [h2]
    rfl
  have hl : lensOf [v1, v2] = .ok [L1, L2] := by
    show (do
        let n ← pyLen v1
        let ns ← lensOf [v2]
        pure (n :: ns)) = _
    rw [h1]
    simp only [hl2, exBindOk]
    rfl
  show (do
      let ns ← lensOf [v1, v2]
      let n0 ← pyLen v1
      pure (ns.all (fun n => n = n0))) = _
  rw [hl]
  simp only [exBindOk]
  rw [h1]
  simp only [exBindOk]
  show Except.ok ([L1, L2].all (fun n => n = L1)) = Except.ok false
  congr 1
  simp [hne]

theorem parScan_group_unequal (k1 k2 : String) (rest : List ExpEntry) (kwargs : Dict)
    (v1 v2 : PyObj) (L1 L2 : Nat)
    (h1 : dlookup kwargs k1 = some v1) (h2 : dlookup (ddel kwargs k1) k2 = some v2)
    (hl1 : pyLen v1 = .ok L1) (hl2 : pyLen v2 = .ok L2) (hne : L2 ≠ L1) :
    parScan (ExpEntry.group [k1, k2] :: rest) [] kwargs
      = .error (.argumentError
          "Lists for parallel expansion arguments have to be of same length!") := by
  show (do
      let (par_args, kwtmp2) ← popAll [k1, k2] kwargs
      let ok ← allSameLen par_args
      if !ok then
        throw (PyErr.argumentError
          "Lists for parallel expansion arguments have to be of same length!")
      else
        parScan rest
          ([] ++ [("TMP_" ++ String.intercalate "_" [k1, k2] ++ "_"
              ++ toString ([k1, k2] : List String).length, [k1, k2])])
          (dinsert kwtmp2
            ("TMP_" ++ String.intercalate "_" [k1, k2] ++ "_"
              ++ toString ([k1, k2] : List String).length)
            (.vlist ((pyZip (par_args.map pyElems)).map PyObj.vtup)))) = _
  rw [popAll_pair kwargs k1 k2 v1 v2 h1 h2]
  simp only [exBindOk]
  rw [allSameLen_pair_ne v1 v2 L1 L2 hl1 hl2 hne]
  simp only [exBindOk]
  rfl

/-- Claim C2 (amended): a parallel outer group of two distinct names bound to
sequences of equal nonzero length L, combined with an independent outer name
of nonzero length M and arbitrary further kwargs, yields exactly L * M
mappings in which the grouped names advance in lock-step with the group index
varying slowest and every other kwarg copied verbatim; and whenever the two
grouped sequences have unequal lengths, ArgumentError is raised instead. -/
theorem expand_parallel_group_lockstep (kwargs : Dict) (k1 k2 b : String)
    (xs ys zs : List PyObj) (L M : Nat) (lproduct : String)
    (hkw : nodupKeys kwargs)
    (hk12 : k1 ≠ k2) (hk1b : k1 ≠ b) (hk2b : k2 ≠ b)
    (hx : dlookup kwargs k1 = some (.vlist xs))
    (hy : dlookup kwargs k2 = some (.vlist ys))
    (hz : dlookup kwargs b = some (.vlist zs))
    (hxL : xs.length = L) (hyL : ys.length = L) (hzM : zs.length = M)
    (hL : 0 < L) (hM : 0 < M)
    (hfake : ("TMP_" ++ String.intercalate "_" [k1, k2] ++ "_"
        ++ toString ([k1, k2] : List String).length) ∉ dkeys kwargs) :
    expandArgumentList none
        (some [ExpEntry.group [k1, k2], ExpEntry.name b]) none lproduct kwargs
      = .ok (parallelGroupSpec kwargs [k1, k2] b) ∧
    (parallelGroupSpec kwargs [k1, k2] b).length = L * M ∧
    (∀ (kwargs2 : Dict) (v1 v2 : PyObj) (L1 L2 : Nat),
      dlookup kwargs2 k1 = some v1 → dlookup (ddel kwargs2 k1) k2 = some v2 →
      pyLen v1 = .ok L1 → pyLen v2 = .ok L2 → L2 ≠ L1 →
      expandArgumentList none
          (some [ExpEntry.group [k1, k2], ExpEntry.name b]) none lproduct kwargs2
        = .error (.argumentError
            "Lists for parallel expansion arguments have to be of same length!")) := by
  set fake : String := "TMP_" ++ String.intercalate "_" [k1, k2] ++ "_"
      ++ toString ([k1, k2] : List String).length with hfakedef
  have hbk : b ∈ dkeys kwargs := (dmem_iff_mem_keys kwargs b).mp (by
    rw [dmem, hz]
    rfl)
  have hk1k : k1 ∈ dkeys kwargs := (dmem_iff_mem_keys kwargs k1).mp (by
    rw [dmem, hx]
    rfl)
  have hk2k : k2 ∈ dkeys kwargs := (dmem_iff_mem_keys kwargs k2).mp (by
    rw [dmem, hy]
    rfl)
  have hfb : fake ≠ b := fun he => hfake (he ▸ hbk)
  set Z : List PyObj := (List.zipWith (fun x y => [x, y]) xs ys).map PyObj.vtup with hZ
  have hZlen : Z.length = L := by
    rw [hZ, List.length_map, List.length_zipWith, hxL, hyL, Nat.min_self]
  have hZmem : ∀ r ∈ Z, ∃ x y, r = PyObj.vtup [x, y] := by
    intro r hr
    rw [hZ] at hr
    obtain ⟨p, hp, rfl⟩ := List.mem_map.mp hr
    obtain ⟨i, hi, hpi⟩ := List.mem_iff_getElem.mp hp
    have hixs : i < xs.length := lt_of_lt_of_le (by
      rw [List.length_zipWith] at hi
      exact hi) (Nat.min_le_left _ _)
    have hiys : i < ys.length := lt_of_lt_of_le (by
      rw [List.length_zipWith] at hi
      exact hi) (Nat.min_le_right _ _)
    refine ⟨xs[i], ys[i], ?_⟩
    rw [← hpi, List.getElem_zipWith]
  have hZi : ∀ i, i < L → Z.getD i PyObj.vnone
      = PyObj.vtup [xs.getD i PyObj.vnone, ys.getD i PyObj.vnone] := by
    intro i hiL
    have hiZ : i < Z.length := by rw [hZlen]; exact hiL
    have hixs : i < xs.length := by rw [hxL]; exact hiL
    have hiys : i < ys.length := by rw [hyL]; exact hiL
    rw [List.getD_eq_getElem Z PyObj.vnone hiZ]
    rw [List.getD_eq_getElem xs PyObj.vnone hixs]
    rw [List.getD_eq_getElem ys PyObj.vnone hiys]
    rw [List.getElem_map, List.getElem_zipWith]
  have hnd_fb : ([fake, b] : List String).Nodup := by simp [hfb]
  have hlenB : (parallelGroupSpec kwargs [k1, k2] b).length = L * M := by
    unfold parallelGroupSpec
    rw [show seqOf kwargs (([k1, k2] : List String).headD "") = xs from by
      show seqOf kwargs k1 = xs
      unfold seqOf
      rw [hx]
      rfl]
    rw [show seqOf kwargs b = zs from by
      unfold seqOf
      rw [hz]
      rfl]
    rw [hxL, hzM]
    rw [List.length_flatMap]
    rw [show (List.length ∘ fun i =>
        List.map (fun j => List.map (fun kv =>
          (kv.1, if kv.1 ∈ ([k1, k2] : List String) then
                   (seqOf kwargs kv.1).getD i PyObj.vnone
                 else if kv.1 = b then zs.getD j PyObj.vnone
                 else kv.2)) kwargs) (List.range M))
      = fun (_ : Nat) => M from funext (fun i => by
        show (List.map _ (List.range M)).length = M
        rw [List.length_map, List.length_range])]
    rw [sum_map_const, List.length_range]
  refine ⟨?_, hlenB, ?_⟩
  · unfold expandArgumentList
    rw [show (((none : Option (List ExpEntry)).getD []).isEmpty
        && ((some [ExpEntry.group [k1, k2], ExpEntry.name b]).getD []).isEmpty
        && ((none : Option (List ExpEntry)).getD []).isEmpty) = false from rfl]
    simp only [Bool.false_eq_true, if_false]
    rw [show resolveLegacy none
          (some [ExpEntry.group [k1, k2], ExpEntry.name b]) none lproduct
        = .ok ([], [ExpEntry.group [k1, k2], ExpEntry.name b]) from rfl]
    simp only [exBindOk]
    rw [if_pos (show ([ExpEntry.group [k1, k2], ExpEntry.name b]
        : List ExpEntry).length > 0 by simp)]
    rw [show kwargs.filter (fun kv => !(containsName [] kv.1)) = kwargs from by
      rw [show (fun (kv : String × PyObj) => !(containsName [] kv.1)) = fun _ => true from
        funext (fun kv => rfl)]
      exact List.filter_true kwargs]
    rw [parScan_group k1 k2 b kwargs (.vlist xs) (.vlist ys) L hx
      (by
        rw [dlookup_ddel_ne kwargs k1 k2 (Ne.symm hk12)]
        exact hy)
      (by rw [show pyLen (PyObj.vlist xs) = .ok xs.length from rfl, hxL])
      (by rw [show pyLen (PyObj.vlist ys) = .ok ys.length from rfl, hyL])]
    simp only [exBindOk]
    rw [show (pyZip [pyElems (PyObj.vlist xs), pyElems (PyObj.vlist ys)]).map PyObj.vtup
        = Z from by
      rw [hZ]
      congr 1
      exact pyZip_pair xs ys (by rw [hxL, hyL])]
    rw [← hfakedef]
    rw [replaceGroups_pair fake k1 k2 b]
    rw [show ([ExpEntry.name fake, ExpEntry.name b] : List ExpEntry)
        = [fake, b].map ExpEntry.name from rfl]
    rw [show (([fake, b].map ExpEntry.name).all isNameEntry) = true from rfl]
    simp only [Bool.not_true, Bool.false_eq_true, if_false]
    rw [prepareList_names_ok [fake, b]
      (dinsert (ddel (ddel kwargs k1) k2) fake (PyObj.vlist Z)) hnd_fb
      (by
        intro n hn
        cases List.mem_cons.mp hn with
        | inl h =>
          rw [h, dlookup_dinsert_self]
          rfl
        | inr h =>
          rw [show n = b from by simpa using h]
          rw [dlookup_dinsert_ne _ _ _ _ (Ne.symm hfb)]
          rw [dlookup_ddel_ne _ _ _ (Ne.symm hk2b)]
          rw [dlookup_ddel_ne _ _ _ (Ne.symm hk1b)]
          rw [hz]
          rfl)]
    simp only [exBindOk]
    set fD : String → PyObj := fun n =>
      (dlookup (dinsert (ddel (ddel kwargs k1) k2) fake (PyObj.vlist Z)) n).getD .vnone
      with hfDdef
    have hfDfake : fD fake = PyObj.vlist Z := by
      show (dlookup (dinsert (ddel (ddel kwargs k1) k2) fake (PyObj.vlist Z))
          fake).getD .vnone = _
      rw [dlookup_dinsert_self]
      rfl
    have hfDb : fD b = PyObj.vlist zs := by
      show (dlookup (dinsert (ddel (ddel kwargs k1) k2) fake (PyObj.vlist Z))
          b).getD .vnone = _
      rw [dlookup_dinsert_ne _ _ _ _ (Ne.symm hfb)]
      rw [dlookup_ddel_ne _ _ _ (Ne.symm hk2b)]
      rw [dlookup_ddel_ne _ _ _ (Ne.symm hk1b)]
      rw [hz]
      rfl
    rw [prodLens_ok [fake, b] fD hnd_fb [fake, b] (fun n hn => hn)
      (by
        intro n hn
        cases List.mem_cons.mp hn with
        | inl h =>
          rw [h, hfDfake]
          rfl
        | inr h =>
          rw [show n = b from by simpa using h, hfDb]
          rfl)]
    simp only [exBindOk]
    rw [show (([fake, b] : List String).map
          (fun n => (pyElems (fD n)).length)).prod = L * M from by
      show (pyElems (fD fake)).length * ((pyElems (fD b)).length * 1) = L * M
      rw [hfDfake, hfDb]
      show Z.length * (zs.length * 1) = L * M
      rw [hZlen, hzM, Nat.mul_one]]
    rw [show loop_recursion [fake, b] (skel [fake, b] fD)
        = loopRec [fake, b]
            ((skel [fake, b] fD).map (fun kv => (kv.1, PyObj.vlist [])))
            (skel [fake, b] fD) from rfl]
    rw [show (skel [fake, b] fD).map (fun kv => (kv.1, PyObj.vlist []))
        = skel [fake, b] (fun m => PyObj.vlist (([] : List PyObj))) from by
      unfold skel
      rw [List.map_map]
      rfl]
    rw [loopRec_skel [fake, b] hnd_fb [fake, b] (fun n hn => hn) hnd_fb fD (fun _ => [])]
    rw [skel_congr [fake, b] _
      (fun m => PyObj.vlist ((termvals [fake, b] fD).map (fun h => h m)))
      (fun m _ => by rw [List.nil_append])]
    set col : String → List PyObj :=
      fun m => (termvals [fake, b] fD).map (fun h => h m) with hcol
    have hcollen : ∀ m, (col m).length = L * M := by
      intro m
      rw [hcol]
      simp only [List.length_map]
      rw [termvals_length [fake, b] fD hnd_fb]
      show (pyElems (fD fake)).length * ((pyElems (fD b)).length * 1) = L * M
      rw [hfDfake, hfDb]
      show Z.length * (zs.length * 1) = L * M
      rw [hZlen, hzM, Nat.mul_one]
    rw [all_dmem_skel [fake, b] fD (fun m => PyObj.vlist (col m)) hnd_fb]
    simp only [Bool.not_true, Bool.false_eq_true, if_false]
    rw [checkLens_ok [fake, b] (skel [fake, b] (fun m => PyObj.vlist (col m))) (L * M)
      (fun el hel =>
        ⟨col el, dlookup_skel_mem [fake, b] _ el hnd_fb hel, hcollen el⟩)]
    simp only [exBindOk]
    rw [checkValLens_ok (skel [fake, b] (fun m => PyObj.vlist (col m))) (L * M)
      (fun kv hkv => by
        obtain ⟨n, hn, rfl⟩ := List.mem_map.mp hkv
        exact ⟨col n, rfl, hcollen n⟩)]
    simp only [exBindOk]
    have htv : termvals [fake, b] fD
        = Z.flatMap (fun v => zs.map (fun w => fupd (fupd fD fake v) b w)) := by
      rw [termvals_pair fake b fD (Ne.symm hfb)]
      rw [show pyElems (fD fake) = Z from by
        rw [hfDfake]
        rfl]
      simp only [show pyElems (fD b) = zs from by
        rw [hfDb]
        rfl]
    have hcolfake : col fake = Z.flatMap (fun z => List.replicate M z) := by
      show (termvals [fake, b] fD).map (fun h => h fake) = _
      rw [htv, List.map_flatMap]
      apply flatMap_congr_left
      intro v _
      rw [List.map_map]
      rw [show ((fun (h : String → PyObj) => h fake)
            ∘ fun w => fupd (fupd fD fake v) b w) = fun (w : PyObj) => v from
        funext (fun w => by
          show fupd (fupd fD fake v) b w fake = v
          unfold fupd
          rw [if_neg hfb, if_pos rfl])]
      rw [map_const_replicate, hzM]
    have hcolb : col b = Z.flatMap (fun _ => zs) := by
      show (termvals [fake, b] fD).map (fun h => h b) = _
      rw [htv, List.map_flatMap]
      apply flatMap_congr_left
      intro v _
      rw [List.map_map]
      rw [show ((fun (h : String → PyObj) => h b)
            ∘ fun w => fupd (fupd fD fake v) b w) = fun (w : PyObj) => w from
        funext (fun w => by
          show fupd (fupd fD fake v) b w b = w
          unfold fupd
          rw [if_pos rfl])]
      exact List.map_id zs
    have hcolf_ne : col fake ≠ [] := by
      intro hc
      have hclen := hcollen fake
      rw [hc] at hclen
      have hpos : 0 < L * M := Nat.mul_pos hL hM
      rw [← hclen] at hpos
      exact Nat.lt_irrefl 0 hpos
    have hwcol : ∀ r ∈ col fake, ∃ x y, r = PyObj.vtup [x, y] := by
      intro r hr
      rw [hcolfake] at hr
      obtain ⟨z, hzmem, hrz⟩ := List.mem_flatMap.mp hr
      obtain ⟨x, y, hzeq⟩ := hZmem z hzmem
      exact ⟨x, y, by rw [List.eq_of_mem_replicate hrz, hzeq]⟩
    rw [show skel [fake, b] (fun m => PyObj.vlist (col m))
        = [(fake, PyObj.vlist (col fake)), (b, PyObj.vlist (col b))] from rfl]
    rw [disassemble_two fake k1 k2 b (PyObj.vlist (col b)) (col fake) hcolf_ne hwcol
      (Ne.symm hk1b) (Ne.symm hk2b) hk12]
    simp only [exBindOk, exBindPure]
    rw [if_neg (show ¬(([] : List ExpEntry).length > 0) by simp)]
    show Except.ok (assemble kwargs
        [(b, PyObj.vlist (col b)),
         (k1, PyObj.vtup ((col fake).map (fun v => (pyElems v).headD PyObj.vnone))),
         (k2, PyObj.vtup ((col fake).map (fun v => (pyElems v).tail.headD PyObj.vnone)))]
        (L * M))
      = Except.ok (parallelGroupSpec kwargs [k1, k2] b)
    congr 1
    set c1 : List PyObj :=
      (col fake).map (fun v => (pyElems v).headD PyObj.vnone) with hc1
    set c2 : List PyObj :=
      (col fake).map (fun v => (pyElems v).tail.headD PyObj.vnone) with hc2
    set hFun : String → PyObj := fun n =>
      if n = k1 then PyObj.vtup c1
      else if n = k2 then PyObj.vtup c2
      else PyObj.vlist (col b) with hhFun
    have hhb : hFun b = PyObj.vlist (col b) := by
      show (if b = k1 then PyObj.vtup c1
          else if b = k2 then PyObj.vtup c2 else PyObj.vlist (col b)) = _
      rw [if_neg (Ne.symm hk1b), if_neg (Ne.symm hk2b)]
    have hh1 : hFun k1 = PyObj.vtup c1 := by
      show (if k1 = k1 then PyObj.vtup c1
          else if k1 = k2 then PyObj.vtup c2 else PyObj.vlist (col b)) = _
      rw [if_pos rfl]
    have hh2 : hFun k2 = PyObj.vtup c2 := by
      show (if k2 = k1 then PyObj.vtup c1
          else if k2 = k2 then PyObj.vtup c2 else PyObj.vlist (col b)) = _
      rw [if_neg (Ne.symm hk12), if_pos rfl]
    have hld : skel [b, k1, k2] hFun
        = [(b, PyObj.vlist (col b)), (k1, PyObj.vtup c1), (k2, PyObj.vtup c2)] := by
      rw [show skel [b, k1, k2] hFun
          = [(b, hFun b), (k1, hFun k1), (k2, hFun k2)] from rfl]
      rw [hhb, hh1, hh2]
    rw [← hld]
    unfold assemble parallelGroupSpec
    have hmapi : ∀ t, (skel [b, k1, k2] hFun).map (fun kv => (kv.1, pyIndex kv.2 t))
        = skel [b, k1, k2] (fun n => pyIndex (hFun n) t) := by
      intro t
      unfold skel
      rw [List.map_map]
      rfl
    simp only [hmapi]
    have hmem3 : ∀ n ∈ ([b, k1, k2] : List String), dmem kwargs n = true := by
      intro n hn
      rcases List.mem_cons.mp hn with h | hn2
      · rw [h, dmem, hz]
        rfl
      rcases List.mem_cons.mp hn2 with h | hn3
      · rw [h, dmem, hx]
        rfl
      · rw [show n = k2 from by simpa using hn3, dmem, hy]
        rfl
    simp only [show ∀ t, dupdate kwargs (skel [b, k1, k2] (fun n => pyIndex (hFun n) t))
        = kwargs.map (fun kv =>
            (kv.1, if kv.1 ∈ ([b, k1, k2] : List String) then pyIndex (hFun kv.1) t
                   else kv.2))
      from fun t => dupdate_skel [b, k1, k2] kwargs _ hkw hmem3]
    have hsk1 : seqOf kwargs k1 = xs := by
      unfold seqOf
      rw [hx]
      rfl
    have hsk2 : seqOf kwargs k2 = ys := by
      unfold seqOf
      rw [hy]
      rfl
    have hsb : seqOf kwargs b = zs := by
      unfold seqOf
      rw [hz]
      rfl
    simp only [List.headD_cons, hsk1, hsb, hxL, hzM]
    rw [range_mul_flatMap M _ L]
    apply flatMap_congr_left
    intro i hi
    have hiL : i < L := List.mem_range.mp hi
    apply List.map_congr_left
    intro j hj
    have hjM : j < M := List.mem_range.mp hj
    apply List.map_congr_left
    intro kv _
    by_cases h1 : kv.1 = k1
    · rw [h1]
      rw [if_pos (show k1 ∈ ([b, k1, k2] : List String) by simp)]
      rw [if_pos (show k1 ∈ ([k1, k2] : List String) by simp)]
      rw [hh1]
      show (k1, (c1 : List PyObj).getD (i * M + j) PyObj.vnone)
          = (k1, (seqOf kwargs k1).getD i PyObj.vnone)
      rw [hsk1]
      rw [hc1, hcolfake, List.map_flatMap]
      rw [show (fun (z : PyObj) =>
            (List.replicate M z).map (fun v => (pyElems v).headD PyObj.vnone))
          = fun z => List.replicate M ((pyElems z).headD PyObj.vnone) from
        funext (fun z => List.map_replicate)]
      rw [getD_flatMap_block (fun z => List.replicate M ((pyElems z).headD PyObj.vnone))
        M Z (fun z _ => List.length_replicate M ((pyElems z).headD PyObj.vnone)) i j
        (by rw [hZlen]; exact hiL) hjM PyObj.vnone PyObj.vnone]
      rw [getD_replicate_self M j _ _ hjM]
      rw [hZi i hiL]
      rfl
    by_cases h2 : kv.1 = k2
    · rw [h2]
      rw [if_pos (show k2 ∈ ([b, k1, k2] : List String) by simp)]
      rw [if_pos (show k2 ∈ ([k1, k2] : List String) by simp)]
      rw [hh2]
      show (k2, (c2 : List PyObj).getD (i * M + j) PyObj.vnone)
          = (k2, (seqOf kwargs k2).getD i PyObj.vnone)
      rw [hsk2]
      rw [hc2, hcolfake, List.map_flatMap]
      rw [show (fun (z : PyObj) =>
            (List.replicate M z).map (fun v => (pyElems v).tail.headD PyObj.vnone))
          = fun z => List.replicate M ((pyElems z).tail.headD PyObj.vnone) from
        funext (fun z => List.map_replicate)]
      rw [getD_flatMap_block
        (fun z => List.replicate M ((pyElems z).tail.headD PyObj.vnone))
        M Z (fun z _ => List.length_replicate M ((pyElems z).tail.headD PyObj.vnone)) i j
        (by rw [hZlen]; exact hiL) hjM PyObj.vnone PyObj.vnone]
      rw [getD_replicate_self M j _ _ hjM]
      rw [hZi i hiL]
      rfl
    by_cases h3 : kv.1 = b
    · rw [h3]
      rw [if_pos (show b ∈ ([b, k1, k2] : List String) by simp)]
      rw [if_neg (show b ∉ ([k1, k2] : List String) by
        simp [Ne.symm hk1b, Ne.symm hk2b])]
      rw [if_pos rfl]
      rw [hhb]
      show (b, (col b).getD (i * M + j) PyObj.vnone)
          = (b, zs.getD j PyObj.vnone)
      rw [hcolb]
      rw [getD_flatMap_block (fun _ => zs) M Z (fun z _ => hzM) i j
        (by rw [hZlen]; exact hiL) hjM PyObj.vnone PyObj.vnone]
    · rw [if_neg (show kv.1 ∉ ([b, k1, k2] : List String) by
        simp [h1, h2, h3])]
      rw [if_neg (show kv.1 ∉ ([k1, k2] : List String) by simp [h1, h2])]
      rw [if_neg h3]
  · intro kwargs2 v1 v2 L1 L2 h1 h2 hl1 hl2 hneq
    unfold expandArgumentList
    rw [show (((none : Option (List ExpEntry)).getD []).isEmpty
        && ((some [ExpEntry.group [k1, k2], ExpEntry.name b]).getD []).isEmpty
        && ((none : Option (List ExpEntry)).getD []).isEmpty) = false from rfl]
    simp only [Bool.false_eq_true, if_false]
    rw [show resolveLegacy none
          (some [ExpEntry.group [k1, k2], ExpEntry.name b]) none lproduct
        = .ok ([], [ExpEntry.group [k1, k2], ExpEntry.name b]) from rfl]
    simp only [exBindOk]
    rw [if_pos (show ([ExpEntry.group [k1, k2], ExpEntry.name b]
        : List ExpEntry).length > 0 by simp)]
    rw [show kwargs2.filter (fun kv => !(containsName [] kv.1)) = kwargs2 from by
      rw [show (fun (kv : String × PyObj) => !(containsName [] kv.1)) = fun _ => true from
        funext (fun kv => rfl)]
      exact List.filter_true kwargs2]
    rw [parScan_group_unequal k1 k2 [ExpEntry.name b] kwargs2 v1 v2 L1 L2
      h1 h2 hl1 hl2 hneq]
    simp only [exBindErr]

/-- Witness for the amended parallel-group claim: the lock-step product at a
group of two names with sequences of length 2 and an independent name of
length 3, plus the ArgumentError on a group of unequal lengths. -/
theorem expand_parallel_group_lockstep_witness :
    expandArgumentList none
        (some [ExpEntry.group ["p", "q"], ExpEntry.name "r"]) none "outer" kwParW
      = .ok (parallelGroupSpec kwParW ["p", "q"] "r") ∧
    (parallelGroupSpec kwParW ["p", "q"] "r").length = 2 * 3 ∧
    expandArgumentList none
        (some [ExpEntry.group ["p", "q"], ExpEntry.name "r"]) none "outer" kwParBad
      = .error (.argumentError
          "Lists for parallel expansion arguments have to be of same length!") := by
  have h := expand_parallel_group_lockstep kwParW "p" "q" "r"
    [.atom 0, .atom 1] [.vstr "u", .vstr "v"] [.atom 5, .atom 6, .atom 7] 2 3 "outer"
    (show (dkeys kwParW).Nodup by decide) (by decide) (by decide) (by decide)
    (by decide) (by decide) (by decide) (by decide) (by decide) (by decide)
    (by decide) (by decide) (by decide)
  exact ⟨h.1, h.2.1, h.2.2 kwParBad (.vlist [.atom 0, .atom 1]) (.vlist [.vstr "u"])
    2 1 (by decide) (by decide) (by decide) (by decide) (by decide)⟩

end EnsembleSpec
